import Mathlib

/-!
# gate-ws: signing, envelopes and session lifecycle

A shallow embedding of `gate_ws.go` and `types/api.go`.  Go strings and byte
slices are byte sequences; `int64` values are integers; every call to the
clock, the dialer or the socket is an explicit argument of the step that
makes it.
-/

namespace GateWs

/-! ## Bytes and Go strings -/

/-- One byte. -/
abbrev Byte := Fin 256

/-- A Go `string` or `[]byte`: an arbitrary sequence of bytes. -/
abbrev GoString := List Byte

/-- The byte with the given value (reduced modulo 256). -/
def byteOf (n : Nat) : Byte := Fin.ofNat n

/-- UTF-8 encoding of one code point, as `utf8.AppendRune` produces it for a
valid rune (surrogates and values above U+10FFFF become U+FFFD). -/
def appendRune (r : Nat) : GoString :=
  if r < 0x80 then [byteOf r]
  else if r < 0x800 then [byteOf (0xC0 + r / 64), byteOf (0x80 + r % 64)]
  else if (0xD800 ≤ r ∧ r < 0xE000) ∨ 0x10FFFF < r then [byteOf 0xEF, byteOf 0xBF, byteOf 0xBD]
  else if r < 0x10000 then
    [byteOf (0xE0 + r / 4096), byteOf (0x80 + r / 64 % 64), byteOf (0x80 + r % 64)]
  else
    [byteOf (0xF0 + r / 262144), byteOf (0x80 + r / 4096 % 64),
     byteOf (0x80 + r / 64 % 64), byteOf (0x80 + r % 64)]

/-- The bytes of a Go string literal (source text is UTF-8). -/
def lit (s : String) : GoString := s.toList.flatMap (fun c => appendRune c.toNat)

/-! ## SHA-512 (`crypto/sha512`, FIPS 180-4) -/

/-- Round constants of SHA-512. -/
def sha512K : List Nat :=
  [
   0x428a2f98d728ae22, 0x7137449123ef65cd, 0xb5c0fbcfec4d3b2f, 0xe9b5dba58189dbbc,
   0x3956c25bf348b538, 0x59f111f1b605d019, 0x923f82a4af194f9b, 0xab1c5ed5da6d8118,
   0xd807aa98a3030242, 0x12835b0145706fbe, 0x243185be4ee4b28c, 0x550c7dc3d5ffb4e2,
   0x72be5d74f27b896f, 0x80deb1fe3b1696b1, 0x9bdc06a725c71235, 0xc19bf174cf692694,
   0xe49b69c19ef14ad2, 0xefbe4786384f25e3, 0x0fc19dc68b8cd5b5, 0x240ca1cc77ac9c65,
   0x2de92c6f592b0275, 0x4a7484aa6ea6e483, 0x5cb0a9dcbd41fbd4, 0x76f988da831153b5,
   0x983e5152ee66dfab, 0xa831c66d2db43210, 0xb00327c898fb213f, 0xbf597fc7beef0ee4,
   0xc6e00bf33da88fc2, 0xd5a79147930aa725, 0x06ca6351e003826f, 0x142929670a0e6e70,
   0x27b70a8546d22ffc, 0x2e1b21385c26c926, 0x4d2c6dfc5ac42aed, 0x53380d139d95b3df,
   0x650a73548baf63de, 0x766a0abb3c77b2a8, 0x81c2c92e47edaee6, 0x92722c851482353b,
   0xa2bfe8a14cf10364, 0xa81a664bbc423001, 0xc24b8b70d0f89791, 0xc76c51a30654be30,
   0xd192e819d6ef5218, 0xd69906245565a910, 0xf40e35855771202a, 0x106aa07032bbd1b8,
   0x19a4c116b8d2d0c8, 0x1e376c085141ab53, 0x2748774cdf8eeb99, 0x34b0bcb5e19b48a8,
   0x391c0cb3c5c95a63, 0x4ed8aa4ae3418acb, 0x5b9cca4f7763e373, 0x682e6ff3d6b2b8a3,
   0x748f82ee5defb2fc, 0x78a5636f43172f60, 0x84c87814a1f0ab72, 0x8cc702081a6439ec,
   0x90befffa23631e28, 0xa4506cebde82bde9, 0xbef9a3f7b2c67915, 0xc67178f2e372532b,
   0xca273eceea26619c, 0xd186b8c721c0c207, 0xeada7dd6cde0eb1e, 0xf57d4f7fee6ed178,
   0x06f067aa72176fba, 0x0a637dc5a2c898a6, 0x113f9804bef90dae, 0x1b710b35131c471b,
   0x28db77f523047d84, 0x32caab7b40c72493, 0x3c9ebe0a15c9bebc, 0x431d67c49c100d4c,
   0x4cc5d4becb3e42b6, 0x597f299cfc657e2a, 0x5fcb6fab3ad6faec, 0x6c44198c4a475817]

/-- Initial hash value of SHA-512. -/
def sha512Init : List Nat :=
  [
   0x6a09e667f3bcc908, 0xbb67ae8584caa73b, 0x3c6ef372fe94f82b, 0xa54ff53a5f1d36f1,
   0x510e527fade682d1, 0x9b05688c2b3e6c1f, 0x1f83d9abfb41bd6b, 0x5be0cd19137e2179]

/-- Rotate a 64-bit word right. -/
def rotr64 (x n : Nat) : Nat := ((x >>> n) ||| (x <<< (64 - n))) % 2 ^ 64

/-- Big-endian value of a byte sequence. -/
def beValue (bs : GoString) : Nat := bs.foldl (fun acc b => acc * 256 + b.val) 0

/-- Big-endian bytes of a 64-bit word. -/
def wordBytes (x : Nat) : GoString :=
  [byteOf (x / 2 ^ 56), byteOf (x / 2 ^ 48), byteOf (x / 2 ^ 40), byteOf (x / 2 ^ 32),
   byteOf (x / 2 ^ 24), byteOf (x / 2 ^ 16), byteOf (x / 2 ^ 8), byteOf x]

/-- The sixteen message words of a 128-byte block. -/
def blockWords (block : GoString) : List Nat :=
  (List.range 16).map (fun i => beValue ((block.drop (8 * i)).take 8))

/-- One step of the message schedule: append word `t` to the words `0 .. t-1`. -/
def scheduleStep (w : List Nat) : List Nat :=
  let t := w.length
  let w15 := w.getD (t - 15) 0
  let w2 := w.getD (t - 2) 0
  let s0 := rotr64 w15 1 ^^^ rotr64 w15 8 ^^^ (w15 >>> 7)
  let s1 := rotr64 w2 19 ^^^ rotr64 w2 61 ^^^ (w2 >>> 6)
  w ++ [(w.getD (t - 16) 0 + s0 + w.getD (t - 7) 0 + s1) % 2 ^ 64]

/-- The eighty-word message schedule of a block. -/
def schedule (block : GoString) : List Nat :=
  (List.range 64).foldl (fun w _ => scheduleStep w) (blockWords block)

/-- The eight working variables (and the chaining value) of SHA-512. -/
structure Sha512State where
  a : Nat
  b : Nat
  c : Nat
  d : Nat
  e : Nat
  f : Nat
  g : Nat
  h : Nat
deriving DecidableEq, Repr

/-- One of the eighty rounds. -/
def sha512Round (s : Sha512State) (k w : Nat) : Sha512State :=
  let bigS1 := rotr64 s.e 14 ^^^ rotr64 s.e 18 ^^^ rotr64 s.e 41
  let ch := (s.e &&& s.f) ^^^ ((s.e ^^^ (2 ^ 64 - 1)) &&& s.g)
  let t1 := (s.h + bigS1 + ch + k + w) % 2 ^ 64
  let bigS0 := rotr64 s.a 28 ^^^ rotr64 s.a 34 ^^^ rotr64 s.a 39
  let maj := (s.a &&& s.b) ^^^ (s.a &&& s.c) ^^^ (s.b &&& s.c)
  let t2 := (bigS0 + maj) % 2 ^ 64
  { a := (t1 + t2) % 2 ^ 64, b := s.a, c := s.b, d := s.c,
    e := (s.d + t1) % 2 ^ 64, f := s.e, g := s.f, h := s.g }

/-- Compression of one block into the chaining value. -/
def sha512Block (hv : Sha512State) (block : GoString) : Sha512State :=
  let s := (sha512K.zip (schedule block)).foldl (fun st kw => sha512Round st kw.1 kw.2) hv
  { a := (hv.a + s.a) % 2 ^ 64, b := (hv.b + s.b) % 2 ^ 64,
    c := (hv.c + s.c) % 2 ^ 64, d := (hv.d + s.d) % 2 ^ 64,
    e := (hv.e + s.e) % 2 ^ 64, f := (hv.f + s.f) % 2 ^ 64,
    g := (hv.g + s.g) % 2 ^ 64, h := (hv.h + s.h) % 2 ^ 64 }

/-- Message padding: a 0x80 byte, zero bytes up to 112 modulo 128, then the
bit length as a 128-bit big-endian number. -/
def sha512Pad (msg : GoString) : GoString :=
  let zeros := (239 - msg.length % 128) % 128
  msg ++ [byteOf 0x80] ++ List.replicate zeros (byteOf 0)
    ++ wordBytes (msg.length * 8 / 2 ^ 64) ++ wordBytes (msg.length * 8)

/-- The digest of a message: 64 bytes. -/
def sha512 (msg : GoString) : GoString :=
  let padded := sha512Pad msg
  let start : Sha512State :=
    { a := sha512Init.getD 0 0, b := sha512Init.getD 1 0, c := sha512Init.getD 2 0,
      d := sha512Init.getD 3 0, e := sha512Init.getD 4 0, f := sha512Init.getD 5 0,
      g := sha512Init.getD 6 0, h := sha512Init.getD 7 0 }
  let s := (List.range (padded.length / 128)).foldl
    (fun st i => sha512Block st ((padded.drop (128 * i)).take 128)) start
  wordBytes s.a ++ wordBytes s.b ++ wordBytes s.c ++ wordBytes s.d
    ++ wordBytes s.e ++ wordBytes s.f ++ wordBytes s.g ++ wordBytes s.h

/-! ## HMAC (`crypto/hmac`) -/

/-- Block size of SHA-512 in bytes. -/
def sha512BlockSize : Nat := 128

/-- The key block `hmac.New` derives: a key longer than a block is replaced by
its digest, then the key is copied into a zero-filled block. -/
def hmacKeyBlock (key : GoString) : GoString :=
  let k := if key.length > sha512BlockSize then sha512 key else key
  k ++ List.replicate (sha512BlockSize - k.length) (byteOf 0)

/-- Byte-wise exclusive or with a constant. -/
def xorPad (pad : Nat) (block : GoString) : GoString :=
  block.map (fun b => byteOf (b.val ^^^ pad))

/-- The value of `hmac.New(sha512.New, key)` after `Write(msg)` and `Sum(nil)`. -/
def hmacSha512 (key msg : GoString) : GoString :=
  let kb := hmacKeyBlock key
  sha512 (xorPad 0x5c kb ++ sha512 (xorPad 0x36 kb ++ msg))

/-! ## Formatting (`strconv`, `fmt`, `encoding/hex`) -/

/-- A Go `int64`. -/
abbrev Int64 := { i : Int // -(2 ^ 63) ≤ i ∧ i < 2 ^ 63 }

/-- The `int64` with the given value, when it is in range. -/
def Int64.ofInt (i : Int) (h : -(2 ^ 63) ≤ i ∧ i < 2 ^ 63 := by decide) : Int64 := ⟨i, h⟩

/-- The ASCII digit of a value below ten. -/
def digitByte (d : Nat) : Byte := byteOf (48 + d)

/-- Decimal digits of a natural number, most significant first, prepended to
`acc`; `fuel` bounds the number of digits. -/
def natDigits : Nat → Nat → GoString → GoString
  | 0, _, acc => acc
  | fuel + 1, n, acc =>
    if n < 10 then digitByte n :: acc
    else natDigits fuel (n / 10) (digitByte (n % 10) :: acc)

/-- Decimal text of a natural number. -/
def formatNat (n : Nat) : GoString := natDigits (n + 1) n []

/-- The text `strconv.FormatInt(i, 10)` (and the verb `%d`) gives. -/
def formatInt (i : Int) : GoString :=
  if i < 0 then byteOf 45 :: formatNat i.natAbs else formatNat i.natAbs

/-- An operand of `fmt.Sprintf`. -/
inductive FmtArg where
  | str (s : GoString)
  | int (i : Int)
deriving DecidableEq

/-- The output of one verb applied to one operand; a verb that does not fit
the operand gives the `%!verb(type=value)` form. -/
def formatVerb (verb : Byte) (a : FmtArg) : GoString :=
  match a with
  | .str s =>
    if verb = byteOf 115 ∨ verb = byteOf 118 then s
    else lit "%!" ++ [verb] ++ lit "(string=" ++ s ++ lit ")"
  | .int i =>
    if verb = byteOf 100 ∨ verb = byteOf 118 then formatInt i
    else lit "%!" ++ [verb] ++ lit "(int64=" ++ formatInt i ++ lit ")"

/-- The text `fmt.Sprintf(format, args...)` gives, for formats made of literal
text and flag-less verbs. -/
def sprintf : GoString → List FmtArg → GoString
  | [], _ => []
  | c :: rest, args =>
    if c = byteOf 37 then
      match rest, args with
      | [], _ => lit "%!(NOVERB)"
      | v :: rest1, [] =>
        if v = byteOf 37 then byteOf 37 :: sprintf rest1 []
        else lit "%!" ++ [v] ++ lit "(MISSING)" ++ sprintf rest1 []
      | v :: rest1, a :: args1 =>
        if v = byteOf 37 then byteOf 37 :: sprintf rest1 (a :: args1)
        else formatVerb v a ++ sprintf rest1 args1
    else c :: sprintf rest args

/-- The table `hextable` of `encoding/hex`. -/
def hextable : GoString := lit "0123456789abcdef"

/-- The string `hex.EncodeToString(src)`: two characters of `hextable` per byte,
high nibble first. -/
def encodeToString (src : GoString) : GoString :=
  src.flatMap (fun v => [hextable.getD (v.val / 16) 0, hextable.getD (v.val % 16) 0])

/-! ## Constants and wire types (`gate_ws.go`, `types/api.go`) -/

/-- Channel of the login request. -/
def FUTURES_LOGIN : GoString := lit "futures.login"

/-- Channel of the keepalive. -/
def FUTURES_PING : GoString := lit "futures.ping"

/-- Channel of the keepalive answer. -/
def FUTURES_PONG : GoString := lit "futures.pong"

/-- Channel of the order placement request. -/
def FUTURES_ORDER_PLACE : GoString := lit "futures.order_place"

/-- The struct `types.ApiPayload`; `RequestParam` is a `json.RawMessage`. -/
structure ApiPayload where
  ApiKey : GoString := []
  Signature : GoString := []
  Timestamp : GoString := []
  RequestId : GoString := []
  RequestParam : GoString := []
deriving DecidableEq

/-- The struct `types.ApiRequest`; `Id` is a pointer, `none` is `nil`. -/
structure ApiRequest where
  App : GoString := []
  Time : Int64 := Int64.ofInt 0
  Id : Option Int64 := none
  Channel : GoString := []
  Event : GoString := []
  Payload : ApiPayload := {}
deriving DecidableEq

/-- The struct `types.OrderParam`. -/
structure OrderParam where
  Contract : GoString := []
  Size : Int64 := Int64.ofInt 0
  Iceberg : Int64 := Int64.ofInt 0
  Price : GoString := []
  Close : Bool := false
  ReduceOnly : Bool := false
  Tif : GoString := []
  Text : GoString := []
  AutoSize : GoString := []
  StpAct : Bool := false
deriving DecidableEq

/-! ## The signer -/

/-- The function `getApiSignature`: HMAC-SHA512 of the text
`Sprintf("%s\n%s\n%s\n%d", "api", channel, string(requestParam), ts)` under the
bytes of `secret`, in hexadecimal. -/
def getApiSignature (secret channel : GoString) (requestParam : GoString) (ts : Int64) :
    GoString :=
  let key := sprintf (lit "%s\n%s\n%s\n%d")
    [.str (lit "api"), .str channel, .str requestParam, .int ts.val]
  encodeToString (hmacSha512 secret key)

/-! ## Reference definitions of the signature -/

/-- Decimal text of an integer, by the library's own printer. -/
def decimal (i : Int) : GoString := lit (toString i)

/-- The canonical string of the signature: `api`, channel, request parameters
and decimal timestamp joined by newlines, no trailing newline. -/
def canonicalString (channel requestParam : GoString) (ts : Int64) : GoString :=
  lit "api\n" ++ channel ++ lit "\n" ++ requestParam ++ lit "\n" ++ decimal ts.val

/-- A lower-case hexadecimal digit. -/
def lowerHexDigit (d : Nat) : Byte := if d < 10 then byteOf (48 + d) else byteOf (87 + d)

/-- Lower-case hexadecimal text of a byte sequence. -/
def lowerHex (bs : GoString) : GoString :=
  bs.flatMap (fun b => [lowerHexDigit (b.val / 16), lowerHexDigit (b.val % 16)])

/-- Whether a byte is one of `0-9a-f`. -/
def isLowerHexByte (b : Byte) : Bool := (48 ≤ b.val && b.val ≤ 57) || (97 ≤ b.val && b.val ≤ 102)

/-! ## Reading decimal text (`strconv.ParseInt`) -/

/-- Whether a byte is an ASCII digit. -/
def isDigit (b : Byte) : Bool := 48 ≤ b.val && b.val ≤ 57

/-- The number a digit string denotes, accumulated left to right. -/
def decimalValue (bs : GoString) : Nat := bs.foldl (fun a b => a * 10 + (b.val - 48)) 0

/-! ## UTF-8 (`unicode/utf8`) -/

/-- The rune `utf8.RuneError`, U+FFFD. -/
def RuneError : Nat := 0xFFFD

/-- The function `utf8.DecodeRuneInString`: the first rune of `s` and its width
in bytes; an invalid or truncated encoding gives `(RuneError, 1)`, the empty
string `(RuneError, 0)`. -/
def decodeRune : GoString → Nat × Nat
  | [] => (RuneError, 0)
  | s0 :: t =>
    if s0.val < 0x80 then (s0.val, 1)
    else if s0.val < 0xC2 ∨ 0xF4 < s0.val then (RuneError, 1)
    else
      let lo := if s0.val = 0xE0 then 0xA0 else if s0.val = 0xF0 then 0x90 else 0x80
      let hi := if s0.val = 0xED then 0x9F else if s0.val = 0xF4 then 0x8F else 0xBF
      match t with
      | [] => (RuneError, 1)
      | s1 :: t1 =>
        if s1.val < lo ∨ hi < s1.val then (RuneError, 1)
        else if s0.val < 0xE0 then (s0.val % 32 * 64 + s1.val % 64, 2)
        else
          match t1 with
          | [] => (RuneError, 1)
          | s2 :: t2 =>
            if s2.val < 0x80 ∨ 0xBF < s2.val then (RuneError, 1)
            else if s0.val < 0xF0 then
              (s0.val % 16 * 4096 + s1.val % 64 * 64 + s2.val % 64, 3)
            else
              match t2 with
              | [] => (RuneError, 1)
              | s3 :: _ =>
                if s3.val < 0x80 ∨ 0xBF < s3.val then (RuneError, 1)
                else
                  (s0.val % 8 * 262144 + s1.val % 64 * 4096 + s2.val % 64 * 64
                    + s3.val % 64, 4)

/-- The function `utf8.ValidString`: every rune decodes without error. -/
def validString : Nat → GoString → Bool
  | 0, s => s.isEmpty
  | fuel + 1, s =>
    match s with
    | [] => true
    | b :: rest =>
      let r := decodeRune (b :: rest)
      if r.1 = RuneError ∧ r.2 = 1 then false
      else validString fuel (rest.drop (r.2 - 1))

/-- Whether a Go string is valid UTF-8. -/
def validUTF8 (s : GoString) : Bool := validString s.length s

/-! ## JSON encoding (`encoding/json`, `Marshal`) -/

/-- The table `htmlSafeSet`: ASCII bytes that a JSON string carries unescaped. -/
def htmlSafe (b : Byte) : Bool :=
  0x20 ≤ b.val && b.val < 0x80 && b.val != 0x22 && b.val != 0x5C && b.val != 0x3C
    && b.val != 0x3E && b.val != 0x26

/-- The escape of an ASCII byte outside `htmlSafeSet`. -/
def escapeByte (b : Byte) : GoString :=
  if b.val = 0x5C ∨ b.val = 0x22 then [byteOf 0x5C, b]
  else if b.val = 8 then lit "\\b"
  else if b.val = 12 then lit "\\f"
  else if b.val = 10 then lit "\\n"
  else if b.val = 13 then lit "\\r"
  else if b.val = 9 then lit "\\t"
  else lit "\\u00" ++ [hextable.getD (b.val / 16) 0, hextable.getD (b.val % 16) 0]

/-- The loop of `appendString` with HTML escaping on: the text between the
quotes.  Invalid UTF-8 becomes the escape of U+FFFD; U+2028 and U+2029 are
escaped; every other rune is copied. -/
def appendStringBody : Nat → GoString → GoString
  | 0, _ => []
  | fuel + 1, s =>
    match s with
    | [] => []
    | b :: rest =>
      if b.val < 0x80 then
        if htmlSafe b then b :: appendStringBody fuel rest
        else escapeByte b ++ appendStringBody fuel rest
      else
        let r := decodeRune (b :: rest)
        if r.1 = RuneError ∧ r.2 = 1 then lit "\\ufffd" ++ appendStringBody fuel rest
        else if r.1 = 0x2028 ∨ r.1 = 0x2029 then
          lit "\\u202" ++ [hextable.getD (r.1 % 16) 0]
            ++ appendStringBody fuel (rest.drop (r.2 - 1))
        else (b :: rest).take r.2 ++ appendStringBody fuel (rest.drop (r.2 - 1))

/-- The function `appendString`: a Go string as a JSON string literal. -/
def appendString (s : GoString) : GoString :=
  byteOf 0x22 :: (appendStringBody s.length s ++ [byteOf 0x22])

/-- One field of a struct as the encoder sees it: the key of its tag, the
`omitempty` option, whether `isEmptyValue` holds of the value, and the encoding
of the value. -/
structure Field where
  name : String
  omitEmpty : Bool
  isEmptyValue : Bool
  encoded : GoString

/-- Whether the struct encoder writes the field. -/
def Field.written (f : Field) : Bool := !(f.omitEmpty && f.isEmptyValue)

/-- Key and value of a written field. -/
def Field.text (f : Field) : GoString := appendString (lit f.name) ++ lit ":" ++ f.encoded

/-- Texts separated by commas. -/
def joinComma : List GoString → GoString
  | [] => []
  | [x] => x
  | x :: y :: rest => x ++ lit "," ++ joinComma (y :: rest)

/-- The struct encoder: the written fields in declaration order, between braces. -/
def encodeStruct (fs : List Field) : GoString :=
  lit "\x7b" ++ joinComma ((fs.filter Field.written).map Field.text) ++ lit "\x7d"

/-- A `string` field: empty when its length is zero. -/
def stringField (name : String) (omitEmpty : Bool) (v : GoString) : Field :=
  { name := name, omitEmpty := omitEmpty, isEmptyValue := v.length == 0,
    encoded := appendString v }

/-- An `int64` field: empty when zero. -/
def intField (name : String) (omitEmpty : Bool) (v : Int64) : Field :=
  { name := name, omitEmpty := omitEmpty, isEmptyValue := v.val == 0,
    encoded := formatInt v.val }

/-- A `bool` field: empty when false. -/
def boolField (name : String) (omitEmpty : Bool) (v : Bool) : Field :=
  { name := name, omitEmpty := omitEmpty, isEmptyValue := !v,
    encoded := if v then lit "true" else lit "false" }

/-- A `*int64` field: empty when nil, and nil is written `null`. -/
def ptrIntField (name : String) (omitEmpty : Bool) (v : Option Int64) : Field :=
  { name := name, omitEmpty := omitEmpty, isEmptyValue := v.isNone,
    encoded := match v with
      | none => lit "null"
      | some i => formatInt i.val }

/-- A `json.RawMessage` field: empty when its length is zero; otherwise its
bytes are the encoding (the program only stores output of `json.Marshal`
there, which `compact` leaves as it is). -/
def rawField (name : String) (omitEmpty : Bool) (v : GoString) : Field :=
  { name := name, omitEmpty := omitEmpty, isEmptyValue := v.length == 0,
    encoded := if v.length = 0 then lit "null" else v }

/-- A struct-typed field: `isEmptyValue` is false of every struct. -/
def structField (name : String) (omitEmpty : Bool) (encoded : GoString) : Field :=
  { name := name, omitEmpty := omitEmpty, isEmptyValue := false, encoded := encoded }

/-- Fields of `ApiPayload` with their tags. -/
def ApiPayload.fields (p : ApiPayload) : List Field :=
  [stringField "api_key" true p.ApiKey,
   stringField "signature" true p.Signature,
   stringField "timestamp" true p.Timestamp,
   stringField "req_id" true p.RequestId,
   rawField "req_param" true p.RequestParam]

/-- Fields of `ApiRequest` with their tags. -/
def ApiRequest.fields (r : ApiRequest) : List Field :=
  [stringField "app" true r.App,
   intField "time" false r.Time,
   ptrIntField "id" true r.Id,
   stringField "channel" false r.Channel,
   stringField "event" true r.Event,
   structField "payload" true (encodeStruct r.Payload.fields)]

/-- Fields of `OrderParam` with their tags. -/
def OrderParam.fields (p : OrderParam) : List Field :=
  [stringField "contract" false p.Contract,
   intField "size" true p.Size,
   intField "iceberg" true p.Iceberg,
   stringField "price" true p.Price,
   boolField "close" true p.Close,
   boolField "reduce_only" true p.ReduceOnly,
   stringField "tif" true p.Tif,
   stringField "text" true p.Text,
   stringField "auto_size" true p.AutoSize,
   boolField "stp_act" true p.StpAct]

/-- The text `json.Marshal` gives for an `ApiRequest`. -/
def marshalApiRequest (r : ApiRequest) : GoString := encodeStruct r.fields

/-- The text `json.Marshal` gives for an `OrderParam`. -/
def marshalOrderParam (p : OrderParam) : GoString := encodeStruct p.fields

/-- The keys of the written fields of a struct, in order. -/
def writtenKeys (fs : List Field) : List String := (fs.filter Field.written).map Field.name

/-! ## Envelopes (`sendAuth`, `PlaceOrder`, `ping`) -/

/-- The correlation id `fmt.Sprintf("%d-%d", time.Now().UnixMilli(), 1)`. -/
def requestId (ms : Int64) : GoString := sprintf (lit "%d-%d") [.int ms.val, .int 1]

/-- The envelope `authMessage` of `sendAuth`, for the clock readings `ts`
(`time.Now().Unix()`) and `ms` (`time.Now().UnixMilli()`). -/
def authMessage (apiKey apiSecret : GoString) (ts ms : Int64) : ApiRequest :=
  { Time := ts,
    Channel := FUTURES_LOGIN,
    Event := lit "api",
    Payload :=
      { ApiKey := apiKey,
        Signature := getApiSignature apiSecret FUTURES_LOGIN (lit "") ts,
        Timestamp := formatInt ts.val,
        RequestId := requestId ms,
        RequestParam := lit "" } }

/-- The envelope `orderPlace` of `PlaceOrder`. -/
def orderPlace (params : OrderParam) (ts ms : Int64) : ApiRequest :=
  { Time := ts,
    Channel := FUTURES_ORDER_PLACE,
    Event := lit "api",
    Payload :=
      { RequestId := requestId ms,
        RequestParam := marshalOrderParam params } }

/-- The envelope `pingMessage` of `ping`. -/
def pingMessage (currentTime : Int64) : ApiRequest :=
  { Time := currentTime, Channel := FUTURES_PING }

/-! ## The session (`WebSocket`) -/

/-- A `MessageHandler`: whether the call returns an error, given the messages
it was called with before and the message of this call. -/
abbrev MessageHandler := List GoString → GoString → Bool

/-- The struct `WebSocket`.  `conn` is `none` for a nil connection and
`some k` for the `k`-th connection the dialer returned; `ctx` is `none` while
`ctx` and `cancel` are nil and `some x` for the `x`-th context created, which
`cancel` cancels; `onMessage` is `none` for a nil handler. -/
structure WebSocket where
  conn : Option Nat := none
  url : GoString
  apiKey : GoString
  apiSecret : GoString
  maxAliveTime : GoString
  pingInterval : Int
  onMessage : Option MessageHandler
  ctx : Option Nat := none
  isConnected : Bool := false

/-- A `WebsocketOption`. -/
abbrev WebsocketOption := WebSocket → WebSocket

/-- The option `WithPingInterval`. -/
def WithPingInterval (pingInterval : Int) : WebsocketOption :=
  fun c => { c with pingInterval := pingInterval }

/-- The option `WithMaxAliveTime`. -/
def WithMaxAliveTime (maxAliveTime : GoString) : WebsocketOption :=
  fun c => { c with maxAliveTime := maxAliveTime }

/-- The constructor `NewGatePrivateWebSocket`. -/
def NewGatePrivateWebSocket (url apiKey apiSecret : GoString) (handler : Option MessageHandler)
    (options : List WebsocketOption) : WebSocket :=
  let c : WebSocket :=
    { url := url, apiKey := apiKey, apiSecret := apiSecret, maxAliveTime := lit "",
      pingInterval := 20, onMessage := handler }
  options.foldl (fun c opt => opt c) c

/-- The setter `SetMessageHandler`. -/
def SetMessageHandler (b : WebSocket) (handler : Option MessageHandler) : WebSocket :=
  { b with onMessage := handler }

/-- The text `sendAuth` hands to `send`. -/
def sendAuth (b : WebSocket) (ts ms : Int64) : GoString :=
  marshalApiRequest (authMessage b.apiKey b.apiSecret ts ms)

/-- The text `PlaceOrder` hands to `send`. -/
def PlaceOrder (params : OrderParam) (ts ms : Int64) : GoString :=
  marshalApiRequest (orderPlace params ts ms)

/-! ## The inbound dispatcher (`handleIncomingMessages`) -/

/-- What `b.conn.ReadMessage()` returns: a message or an error. -/
inductive ReadResult where
  | message (m : GoString)
  | failure
deriving DecidableEq

/-- How a run of the dispatcher over a finite sequence of read results ends:
it returned after a read error, it returned after a handler error, or it is
blocked in `ReadMessage` because the sequence is used up. -/
inductive DispatchEnd where
  | readFailure
  | handlerError
  | waiting
deriving DecidableEq

/-- The outcome of a run of the dispatcher: the session, the messages the
handler was called with, in order, and how the run ended. -/
structure DispatchRun where
  ws : WebSocket
  calls : List GoString
  ending : DispatchEnd

/-- The loop of `handleIncomingMessages` over the results of the successive
`ReadMessage` calls; `calls` are the handler calls made so far. -/
def handleIncomingMessages (b : WebSocket) : List ReadResult → List GoString → DispatchRun
  | [], calls => { ws := b, calls := calls, ending := .waiting }
  | .failure :: _, calls =>
    { ws := { b with isConnected := false }, calls := calls, ending := .readFailure }
  | .message m :: rest, calls =>
    match b.onMessage with
    | none => handleIncomingMessages b rest calls
    | some h =>
      if h calls m then { ws := b, calls := calls ++ [m], ending := .handlerError }
      else handleIncomingMessages b rest (calls ++ [m])

/-! ## The liveness monitor (`ping`) -/

/-- The state of one `ping` activity and of what it selects on: whether the
ticker channel (capacity one) holds a tick, whether `b.ctx` is done, whether the
activity has not returned yet, and the writes it made, each with the text and
whether the write succeeded. -/
structure PingState where
  tickPending : Bool := false
  cancelled : Bool := false
  running : Bool
  writes : List (GoString × Bool) := []
deriving DecidableEq

/-- What can happen to a `ping` activity: the ticker fires, the context is
cancelled, or the activity runs its `select` once.  When both cases are ready
`select` chooses one at random: `takeTick` is that choice.  `now` is the clock
reading and `writeOk` the result of the write if the tick case runs. -/
inductive PingEvent where
  | tick
  | cancel
  | select (takeTick : Bool) (now : Int64) (writeOk : Bool)
deriving DecidableEq

/-- The start of `ping`: with a non-positive interval it returns at once. -/
def pingStart (pingInterval : Int) : PingState :=
  { running := decide (0 < pingInterval) }

/-- One event of a `ping` activity. -/
def pingStep (s : PingState) : PingEvent → PingState
  | .tick => { s with tickPending := true }
  | .cancel => { s with cancelled := true }
  | .select takeTick now writeOk =>
    if !s.running then s
    else if s.tickPending && (!s.cancelled || takeTick) then
      { s with tickPending := false,
               writes := s.writes ++ [(marshalApiRequest (pingMessage now), writeOk)],
               running := writeOk }
    else if s.cancelled then { s with running := false }
    else s

/-- A schedule of events of a `ping` activity. -/
def pingRun (s : PingState) (es : List PingEvent) : PingState := es.foldl pingStep s

/-! ## The lifecycle (`Connect`, `monitorConnection`, `Disconnect`) -/

/-- A background activity, with the connection generation it was started in. -/
inductive Activity where
  | dispatcher (generation : Nat)
  | watchdog (generation : Nat)
  | liveness (generation : Nat)
deriving DecidableEq

/-- How a call ended: it returned (with or without an error) or it panicked
on a nil value. -/
inductive Outcome where
  | returned (err : Bool)
  | panicked
deriving DecidableEq

/-- The session together with what surrounds it: connections dialled and
closed, contexts created and cancelled, connection generations begun,
activities started (in order) and the numbers of dispatcher and watchdog
activities that have not returned, the number of watchdogs that are inside a
call of `b.Connect()` whose dial has not returned yet, the calls of `Connect`
made, and the texts written to the socket. -/
structure World where
  ws : WebSocket
  dials : Nat := 0
  closed : List Nat := []
  contexts : Nat := 0
  cancelled : List Nat := []
  generation : Nat := 0
  started : List Activity := []
  dispatchers : Nat := 0
  watchdogs : Nat := 0
  inFlight : Nat := 0
  connectCalls : Nat := 0
  wire : List GoString := []

/-- The method `Connect`.  `dialOk` and `writeOk` are the results of the dial
and of the write of the login envelope, `ts` and `ms` the clock readings of
`sendAuth`. -/
def Connect (w : World) (dialOk writeOk : Bool) (ts ms : Int64) : World × Outcome :=
  let w0 := { w with connectCalls := w.connectCalls + 1 }
  if !dialOk then
    ({ w0 with ws := { w0.ws with conn := none } }, .returned true)
  else
    let w1 := { w0 with dials := w0.dials + 1, ws := { w0.ws with conn := some w0.dials } }
    if !writeOk then (w1, .returned true)
    else
      let g := w1.generation + 1
      ({ w1 with
          wire := w1.wire ++ [sendAuth w1.ws ts ms],
          generation := g,
          started := w1.started ++ [.dispatcher g, .watchdog g, .liveness g],
          dispatchers := w1.dispatchers + 1,
          watchdogs := w1.watchdogs + 1,
          contexts := w1.contexts + 1,
          ws := { w1.ws with isConnected := true, ctx := some w1.contexts } },
        .returned false)

/-- The `select` that ends an iteration of the loop of `monitorConnection`:
the watchdog returns if the context `b.ctx` is done.  A nil context makes it
panic. -/
def monitorSelect (w : World) : World × Outcome :=
  match w.ws.ctx with
  | none => ({ w with watchdogs := w.watchdogs - 1 }, .panicked)
  | some y =>
    if w.cancelled.contains y then
      ({ w with watchdogs := w.watchdogs - 1 }, .returned false)
    else (w, .returned false)

/-- Whether a watchdog whose ticker fires now finds the guard of
`monitorConnection` true: the flag is false and the context is not done. -/
def reconnectDue (w : World) : Bool :=
  decide (w.inFlight < w.watchdogs) &&
    match w.ws.ctx with
    | none => false
    | some x => !w.ws.isConnected && !(w.cancelled.contains x)

/-- The start of an iteration of the loop of `monitorConnection`, by a watchdog
that is not inside `Connect`: its ticker fired and it evaluates the guard.  If
the guard is true it calls `b.Connect()` and waits there for the dial: it is
counted in `inFlight`, and other activities can run before the dial returns.
If the guard is false it goes on to the `select`.  Without such a watchdog
nothing happens. -/
def monitorGuard (w : World) : World × Outcome :=
  if w.watchdogs ≤ w.inFlight then (w, .returned false)
  else
    match w.ws.ctx with
    | none => ({ w with watchdogs := w.watchdogs - 1 }, .panicked)
    | some x =>
      if !w.ws.isConnected && !(w.cancelled.contains x) then
        ({ w with inFlight := w.inFlight + 1 }, .returned false)
      else monitorSelect w

/-- The rest of the iteration for a watchdog that is inside `b.Connect()`: the
dial returns, `Connect` runs to its end, on success the watchdog sets the flag
and starts a dispatcher, and it goes on to the `select`.  Without such a
watchdog nothing happens. -/
def monitorResume (w : World) (dialOk writeOk : Bool) (ts ms : Int64) : World × Outcome :=
  if w.inFlight = 0 then (w, .returned false)
  else
    let r := Connect { w with inFlight := w.inFlight - 1 } dialOk writeOk ts ms
    if r.2 = .returned false then
      monitorSelect
        { r.1 with
            ws := { r.1.ws with isConnected := true },
            started := r.1.started ++ [.dispatcher r.1.generation],
            dispatchers := r.1.dispatchers + 1 }
    else monitorSelect r.1

/-- One iteration of the loop of `monitorConnection` with no other activity
running between its guard and its `select`: the guard, then, if it was true,
the call of `Connect` and what follows it. -/
def monitorPoll (w : World) (dialOk writeOk : Bool) (ts ms : Int64) : World × Outcome :=
  if reconnectDue w then monitorResume (monitorGuard w).1 dialOk writeOk ts ms
  else monitorGuard w

/-- The method `Disconnect`: call `b.cancel`, clear the flag, close the
connection.  A nil `cancel` or a nil `conn` makes the call panic at that
point; closing a connection a second time returns an error. -/
def Disconnect (w : World) : World × Outcome :=
  match w.ws.ctx with
  | none => (w, .panicked)
  | some x =>
    let w1 := { w with cancelled := x :: w.cancelled, ws := { w.ws with isConnected := false } }
    match w1.ws.conn with
    | none => (w1, .panicked)
    | some c => ({ w1 with closed := c :: w1.closed }, .returned (w1.closed.contains c))

/-- A read error in a running dispatcher: it clears the flag and returns. -/
def readFailure (w : World) : World :=
  if w.dispatchers = 0 then w
  else { w with dispatchers := w.dispatchers - 1, ws := { w.ws with isConnected := false } }

/-- A handler error in a running dispatcher: it returns. -/
def handlerFailure (w : World) : World :=
  if w.dispatchers = 0 then w
  else { w with dispatchers := w.dispatchers - 1 }

/-- A step of the lifecycle.  A watchdog iteration is either one step `poll`,
or a step `pollGuard` followed, when the guard was true, by a later step
`pollResume`, with any steps of other activities in between. -/
inductive Event where
  | connect (dialOk writeOk : Bool) (ts ms : Int64)
  | readFailure
  | handlerFailure
  | poll (dialOk writeOk : Bool) (ts ms : Int64)
  | pollGuard
  | pollResume (dialOk writeOk : Bool) (ts ms : Int64)
  | disconnect
deriving DecidableEq

/-- Whether the step is a call of `Connect` by the caller. -/
def Event.isConnect : Event → Bool
  | .connect _ _ _ _ => true
  | _ => false

/-- The effect of a step. -/
def step (w : World) : Event → World
  | .connect dialOk writeOk ts ms => (Connect w dialOk writeOk ts ms).1
  | .readFailure => readFailure w
  | .handlerFailure => handlerFailure w
  | .poll dialOk writeOk ts ms => (monitorPoll w dialOk writeOk ts ms).1
  | .pollGuard => (monitorGuard w).1
  | .pollResume dialOk writeOk ts ms => (monitorResume w dialOk writeOk ts ms).1
  | .disconnect => (Disconnect w).1

/-- The effect of a sequence of steps. -/
def run (w : World) (es : List Event) : World := es.foldl step w

/-- The world of a freshly constructed session. -/
def World.fresh (b : WebSocket) : World := { ws := b }

/-- How many of the started activities satisfy a test. -/
def countStarted (w : World) (p : Activity → Bool) : Nat := (w.started.filter p).length

/-- The handler returns no error on any of the calls `ms`, made in order after
the calls `pre`. -/
def quiet (h : MessageHandler) : List GoString → List GoString → Prop
  | _, [] => True
  | pre, m :: rest => h pre m = false ∧ quiet h (pre ++ [m]) rest

/-- The number of ticks the ticker delivers in a schedule. -/
def tickCount (es : List PingEvent) : Nat := es.count .tick

/-! ## JSON decoding (`encoding/json`, `Unmarshal` into an `OrderParam`)

The reference for "decoding the request parameters into an `OrderParam`": the
reading of a JSON object whose values are strings, numbers, booleans or
`null`.  A value that is an array or an object is rejected (every field of
`OrderParam` is a scalar, so `Unmarshal` reports an error for it on a known
key). -/

/-- The value of a hexadecimal digit of either case. -/
def hexValue (b : Byte) : Option Nat :=
  if 48 ≤ b.val ∧ b.val ≤ 57 then some (b.val - 48)
  else if 97 ≤ b.val ∧ b.val ≤ 102 then some (b.val - 87)
  else if 65 ≤ b.val ∧ b.val ≤ 70 then some (b.val - 55)
  else none

/-- The function `getu4`: the code unit of a `\uXXXX` escape at the start of
the text, if there is one. -/
def getu4 : GoString → Option Nat
  | b0 :: b1 :: x0 :: x1 :: x2 :: x3 :: _ =>
    if b0.val = 0x5C ∧ b1.val = 0x75 then
      match hexValue x0, hexValue x1, hexValue x2, hexValue x3 with
      | some v0, some v1, some v2, some v3 => some (((v0 * 16 + v1) * 16 + v2) * 16 + v3)
      | _, _, _, _ => none
    else none
  | _ => none

/-- The byte a one-letter escape stands for. -/
def simpleEscape (e : Byte) : Option Byte :=
  if e.val = 0x22 ∨ e.val = 0x5C ∨ e.val = 0x2F ∨ e.val = 0x27 then some e
  else if e.val = 0x62 then some (byteOf 8)
  else if e.val = 0x66 then some (byteOf 12)
  else if e.val = 0x6E then some (byteOf 10)
  else if e.val = 0x72 then some (byteOf 13)
  else if e.val = 0x74 then some (byteOf 9)
  else none

/-- Put decoded bytes in front of what the rest of a string literal decodes to. -/
def prepend (out : GoString) (r : Option (GoString × GoString)) : Option (GoString × GoString) :=
  r.map (fun p => (out ++ p.1, p.2))

/-- The scanner and `unquote` on the text after an opening quote: the decoded
string and the text after the closing quote.  Escapes are resolved, surrogate
pairs combined, and invalid UTF-8 is replaced by U+FFFD; a control character
or an unknown escape is an error. -/
def unquoteBody : Nat → GoString → Option (GoString × GoString)
  | 0, _ => none
  | fuel + 1, s =>
    match s with
    | [] => none
    | c :: rest =>
      if c.val = 0x22 then some ([], rest)
      else if c.val = 0x5C then
        match rest with
        | [] => none
        | e :: rest1 =>
          if e.val = 0x75 then
            match getu4 (c :: e :: rest1) with
            | none => none
            | some rr =>
              if 0xD800 ≤ rr ∧ rr < 0xE000 then
                match getu4 (rest1.drop 4) with
                | none => prepend (appendRune RuneError) (unquoteBody fuel (rest1.drop 4))
                | some rr1 =>
                  if rr < 0xDC00 ∧ 0xDC00 ≤ rr1 ∧ rr1 < 0xE000 then
                    prepend (appendRune ((rr - 0xD800) * 1024 + (rr1 - 0xDC00) + 0x10000))
                      (unquoteBody fuel (rest1.drop 10))
                  else prepend (appendRune RuneError) (unquoteBody fuel (rest1.drop 4))
              else prepend (appendRune rr) (unquoteBody fuel (rest1.drop 4))
          else
            match simpleEscape e with
            | none => none
            | some b => prepend [b] (unquoteBody fuel rest1)
      else if c.val < 0x20 then none
      else if c.val < 0x80 then prepend [c] (unquoteBody fuel rest)
      else
        let r := decodeRune (c :: rest)
        prepend (appendRune r.1) (unquoteBody fuel (rest.drop (r.2 - 1)))

/-- A scalar JSON value: a decoded string, the text of a number, a boolean or
`null`. -/
inductive JToken where
  | str (s : GoString)
  | num (text : GoString)
  | bool (b : Bool)
  | null
deriving DecidableEq

/-- Whether a byte is JSON white space. -/
def isSpace (b : Byte) : Bool := b.val == 0x20 || b.val == 9 || b.val == 13 || b.val == 10

/-- The text without its leading white space. -/
def skipSpace (s : GoString) : GoString := s.dropWhile isSpace

/-- Whether a byte can occur in a number. -/
def isNumberByte (b : Byte) : Bool :=
  isDigit b || b.val == 0x2D || b.val == 0x2B || b.val == 0x2E || b.val == 0x65 || b.val == 0x45

/-- Whether the text is an exponent part or empty. -/
def validExponent : GoString → Bool
  | [] => true
  | c :: r =>
    if c.val = 0x65 ∨ c.val = 0x45 then
      match r with
      | [] => false
      | d :: r1 =>
        if d.val = 0x2B ∨ d.val = 0x2D then !r1.isEmpty && r1.all isDigit
        else (d :: r1).all isDigit
    else false

/-- Whether the text is a fraction part followed by an exponent part, each
optional. -/
def validFraction : GoString → Bool
  | [] => true
  | c :: r =>
    if c.val = 0x2E then
      match r with
      | [] => false
      | d :: r1 => isDigit d && validExponent (r1.dropWhile isDigit)
    else validExponent (c :: r)

/-- Whether the text is a JSON number. -/
def validNumber (t : GoString) : Bool :=
  let t1 := match t with
    | [] => []
    | c :: r => if c.val = 0x2D then r else c :: r
  match t1 with
  | [] => false
  | d :: r =>
    if d.val = 0x30 then validFraction r
    else isDigit d && validFraction (r.dropWhile isDigit)

/-- The function `strconv.ParseInt(t, 10, 64)` on the text of a JSON number:
an optional minus sign and digits, with a value that fits an `int64`. -/
def parseInt64 (t : GoString) : Option Int64 :=
  let neg := match t with
    | [] => false
    | c :: _ => c.val = 0x2D
  let ds := if neg then t.drop 1 else t
  if !ds.isEmpty && ds.all isDigit then
    let i : Int := if neg then -(decimalValue ds : Int) else (decimalValue ds : Int)
    if h : -(2 ^ 63) ≤ i ∧ i < 2 ^ 63 then some ⟨i, h⟩ else none
  else none

/-- Whether the text starts with the given bytes. -/
def startsWith (s pre : GoString) : Bool := s.take pre.length == pre

/-- One scalar value at the start of the text, and the text after it. -/
def readValue (s : GoString) : Option (JToken × GoString) :=
  match s with
  | [] => none
  | c :: rest =>
    if c.val = 0x22 then
      (unquoteBody rest.length rest).map (fun p => (JToken.str p.1, p.2))
    else if startsWith s (lit "true") then some (.bool true, s.drop 4)
    else if startsWith s (lit "false") then some (.bool false, s.drop 5)
    else if startsWith s (lit "null") then some (.null, s.drop 4)
    else
      let t := s.takeWhile isNumberByte
      if validNumber t then some (.num t, s.dropWhile isNumberByte) else none

/-- The members of an object, read after its opening brace up to and including
its closing brace, and the text after it. -/
def readMembers : Nat → GoString → Option (List (GoString × JToken) × GoString)
  | 0, _ => none
  | fuel + 1, s =>
    match skipSpace s with
    | [] => none
    | q :: r0 =>
      if q.val = 0x22 then
        match unquoteBody r0.length r0 with
        | none => none
        | some (key, r1) =>
          match skipSpace r1 with
          | [] => none
          | c :: r2 =>
            if c.val = 0x3A then
              match readValue (skipSpace r2) with
              | none => none
              | some (v, r3) =>
                match skipSpace r3 with
                | [] => none
                | d :: r4 =>
                  if d.val = 0x2C then
                    (readMembers fuel r4).map (fun p => ((key, v) :: p.1, p.2))
                  else if d.val = 0x7D then some ([(key, v)], r4)
                  else none
            else none
      else none

/-- The members of the object the text consists of; the text `null` has none. -/
def readObject (data : GoString) : Option (List (GoString × JToken)) :=
  match skipSpace data with
  | [] => none
  | c :: r =>
    if c.val = 0x7B then
      match skipSpace r with
      | [] => none
      | d :: r1 =>
        if d.val = 0x7D then (if skipSpace r1 = [] then some [] else none)
        else
          match readMembers data.length r with
          | none => none
          | some (ms, rest) => if skipSpace rest = [] then some ms else none
    else if startsWith (c :: r) (lit "null") ∧ skipSpace (r.drop 3) = [] then some []
    else none

/-- The folding of a key for the case-insensitive match of field names: ASCII
letters to lower case, and the two other letters that fold onto ASCII ones
(U+017F onto `s`, U+212A onto `k`). -/
def foldKey : GoString → GoString
  | [] => []
  | [a] => [if 65 ≤ a.val ∧ a.val ≤ 90 then byteOf (a.val + 32) else a]
  | [a, b] =>
    if a.val = 0xC5 ∧ b.val = 0xBF then [byteOf 0x73]
    else (if 65 ≤ a.val ∧ a.val ≤ 90 then byteOf (a.val + 32) else a) :: foldKey [b]
  | a :: b :: c :: rest =>
    if a.val = 0xC5 ∧ b.val = 0xBF then byteOf 0x73 :: foldKey (c :: rest)
    else if a.val = 0xE2 ∧ b.val = 0x84 ∧ c.val = 0xAA then byteOf 0x6B :: foldKey rest
    else (if 65 ≤ a.val ∧ a.val ≤ 90 then byteOf (a.val + 32) else a) :: foldKey (b :: c :: rest)

/-- The keys of the fields of `OrderParam`, in declaration order. -/
def orderParamKeys : List String :=
  ["contract", "size", "iceberg", "price", "close", "reduce_only", "tif", "text",
   "auto_size", "stp_act"]

/-- The position of the field of `OrderParam` a key names, if any. -/
def fieldIndex (key : GoString) : Option Nat :=
  let i := (orderParamKeys.map (fun k => foldKey (lit k))).indexOf (foldKey key)
  if i < orderParamKeys.length then some i else none

/-- The string a value gives to a `string` field. -/
def JToken.asString : JToken → Option GoString
  | .str s => some s
  | _ => none

/-- The integer a value gives to an `int64` field. -/
def JToken.asInt64 : JToken → Option Int64
  | .num t => parseInt64 t
  | _ => none

/-- The boolean a value gives to a `bool` field. -/
def JToken.asBool : JToken → Option Bool
  | .bool b => some b
  | _ => none

/-- The effect of one member on the `OrderParam` being filled: `null` and
unknown keys change nothing, a value of the wrong kind is an error. -/
def assignMember (p : OrderParam) (m : GoString × JToken) : Option OrderParam :=
  if m.2 = .null then some p
  else
    match fieldIndex m.1 with
    | some 0 => m.2.asString.map (fun v => { p with Contract := v })
    | some 1 => m.2.asInt64.map (fun v => { p with Size := v })
    | some 2 => m.2.asInt64.map (fun v => { p with Iceberg := v })
    | some 3 => m.2.asString.map (fun v => { p with Price := v })
    | some 4 => m.2.asBool.map (fun v => { p with Close := v })
    | some 5 => m.2.asBool.map (fun v => { p with ReduceOnly := v })
    | some 6 => m.2.asString.map (fun v => { p with Tif := v })
    | some 7 => m.2.asString.map (fun v => { p with Text := v })
    | some 8 => m.2.asString.map (fun v => { p with AutoSize := v })
    | some 9 => m.2.asBool.map (fun v => { p with StpAct := v })
    | _ => some p

/-- The members applied in order. -/
def assignMembers : OrderParam → List (GoString × JToken) → Option OrderParam
  | p, [] => some p
  | p, m :: rest =>
    match assignMember p m with
    | none => none
    | some q => assignMembers q rest

/-- The value `json.Unmarshal(data, &into)` leaves in `into` when it returns no
error. -/
def unmarshalOrderParam (data : GoString) (into : OrderParam) : Option OrderParam :=
  match readObject data with
  | none => none
  | some ms => assignMembers into ms

/-- The fields of an `OrderParam`, each with the JSON value its encoding reads
back as. -/
def OrderParam.tokens (p : OrderParam) : List (Field × JToken) :=
  [(stringField "contract" false p.Contract, .str p.Contract),
   (intField "size" true p.Size, .num (formatInt p.Size.val)),
   (intField "iceberg" true p.Iceberg, .num (formatInt p.Iceberg.val)),
   (stringField "price" true p.Price, .str p.Price),
   (boolField "close" true p.Close, .bool p.Close),
   (boolField "reduce_only" true p.ReduceOnly, .bool p.ReduceOnly),
   (stringField "tif" true p.Tif, .str p.Tif),
   (stringField "text" true p.Text, .str p.Text),
   (stringField "auto_size" true p.AutoSize, .str p.AutoSize),
   (boolField "stp_act" true p.StpAct, .bool p.StpAct)]

/-- The members the encoding of an `OrderParam` reads back as: one for each
written field. -/
def OrderParam.members (p : OrderParam) : List (GoString × JToken) :=
  (p.tokens.filter (fun ft => ft.1.written)).map (fun ft => (lit ft.1.name, ft.2))

/-- Whether every string field of an `OrderParam` is valid UTF-8. -/
def OrderParam.validText (p : OrderParam) : Bool :=
  validUTF8 p.Contract && validUTF8 p.Price && validUTF8 p.Tif && validUTF8 p.Text
    && validUTF8 p.AutoSize

/-! # Theorems -/

theorem sha512_length (msg : GoString) : (sha512 msg).length = 64 := by
  simp [sha512, wordBytes]

theorem hmacSha512_length (key msg : GoString) : (hmacSha512 key msg).length = 64 := by
  simp [hmacSha512, sha512_length]

theorem hextable_getD (d : Fin 16) : hextable.getD d.val 0 = lowerHexDigit d.val := by
  revert d; decide

theorem encodeToString_eq_lowerHex (src : GoString) : encodeToString src = lowerHex src := by
  unfold encodeToString lowerHex
  congr 1
  funext v
  have h1 := hextable_getD ⟨v.val / 16, by omega⟩
  have h2 := hextable_getD ⟨v.val % 16, by omega⟩
  simp only at h1 h2
  rw [h1, h2]

theorem lowerHex_length (bs : GoString) : (lowerHex bs).length = 2 * bs.length := by
  induction bs with
  | nil => rfl
  | cons b t ih => simp [lowerHex] at ih ⊢; omega

theorem lowerHexDigit_isLowerHex (d : Fin 16) : isLowerHexByte (lowerHexDigit d.val) = true := by
  revert d; decide

theorem lowerHex_all (bs : GoString) : ∀ c ∈ lowerHex bs, isLowerHexByte c = true := by
  intro c hc
  simp only [lowerHex, List.mem_flatMap, List.mem_cons, List.mem_singleton, List.not_mem_nil,
    or_false] at hc
  obtain ⟨b, -, h | h⟩ := hc
  · subst h; exact lowerHexDigit_isLowerHex ⟨b.val / 16, by omega⟩
  · subst h; exact lowerHexDigit_isLowerHex ⟨b.val % 16, by omega⟩

theorem digitChar_bytes (d : Fin 10) :
    appendRune (Nat.digitChar d.val).toNat = [digitByte d.val] := by
  revert d; decide

theorem toDigitsCore_bytes (fuel n : Nat) (acc : List Char) :
    (Nat.toDigitsCore 10 fuel n acc).flatMap (fun c => appendRune c.toNat)
      = natDigits fuel n (acc.flatMap (fun c => appendRune c.toNat)) := by
  induction fuel generalizing n acc with
  | zero => simp [Nat.toDigitsCore, natDigits]
  | succ k ih =>
    simp only [Nat.toDigitsCore, natDigits]
    have hd := digitChar_bytes ⟨n % 10, by omega⟩
    simp only at hd
    by_cases h : n < 10
    · have h0 : n / 10 = 0 := by omega
      have hm : n % 10 = n := by omega
      simp [h0, h, hd, hm] at *
      simp [hd]
    · have h0 : ¬ n / 10 = 0 := by omega
      simp only [h0, h, if_false]
      rw [ih]
      simp [hd]

theorem formatNat_eq (n : Nat) : formatNat n = lit (toString n) := by
  have h := toDigitsCore_bytes (n + 1) n []
  simp only [List.flatMap_nil] at h
  rw [formatNat, ← h]
  rfl

theorem formatInt_eq_decimal (i : Int) : formatInt i = decimal i := by
  unfold formatInt decimal
  cases i with
  | ofNat m =>
    have : ¬ (Int.ofNat m < 0) := by simp
    simp only [this, if_false]
    rw [formatNat_eq]
    rfl
  | negSucc m =>
    have : (Int.negSucc m < 0) := Int.negSucc_lt_zero m
    simp only [this, if_true]
    rw [formatNat_eq]
    show _ = lit ("-" ++ toString (m+1))
    simp [lit, appendRune, String.toList]

theorem signFormat_bytes : lit "%s\n%s\n%s\n%d" =
    [byteOf 37, byteOf 115, byteOf 10, byteOf 37, byteOf 115, byteOf 10,
     byteOf 37, byteOf 115, byteOf 10, byteOf 37, byteOf 100] := by decide

theorem sprintf_sign (channel requestParam : GoString) (ts : Int64) :
    sprintf (lit "%s\n%s\n%s\n%d")
      [.str (lit "api"), .str channel, .str requestParam, .int ts.val]
      = canonicalString channel requestParam ts := by
  rw [signFormat_bytes]
  have e1 : (byteOf 37 = byteOf 37) = True := by simp
  have e2 : (byteOf 115 = byteOf 37) = False := by simp; decide
  have e3 : (byteOf 100 = byteOf 37) = False := by simp; decide
  have e4 : (byteOf 10 = byteOf 37) = False := by simp; decide
  have l1 : lit "api\n" = lit "api" ++ [byteOf 10] := by decide
  have l2 : lit "\n" = [byteOf 10] := by decide
  simp only [sprintf, formatVerb, e1, e2, e3, e4, if_true, if_false, true_or, or_true]
  simp [canonicalString, formatInt_eq_decimal, l1, l2]

theorem getApiSignature_lowerHex (secret channel requestParam : GoString) (ts : Int64) :
    getApiSignature secret channel requestParam ts
      = lowerHex (hmacSha512 secret (canonicalString channel requestParam ts)) := by
  simp only [getApiSignature, sprintf_sign, encodeToString_eq_lowerHex]

/-- C1. For every secret, channel, request-parameter bytes and `int64` timestamp,
`getApiSignature` is the lower-case hexadecimal text of HMAC-SHA512, keyed with
the bytes of the secret, of exactly `"api\n" ++ channel ++ "\n" ++ requestParam
++ "\n" ++ decimal ts` (no trailing newline; empty parameters contribute the
empty string), and that text has 128 characters, all of them in `0-9a-f`. -/
theorem getApiSignature_spec (secret channel requestParam : GoString) (ts : Int64) :
    getApiSignature secret channel requestParam ts
        = lowerHex (hmacSha512 secret (canonicalString channel requestParam ts))
      ∧ canonicalString channel [] ts
        = lit "api\n" ++ channel ++ lit "\n" ++ lit "\n" ++ decimal ts.val
      ∧ (getApiSignature secret channel requestParam ts).length = 128
      ∧ ∀ c ∈ getApiSignature secret channel requestParam ts, isLowerHexByte c = true := by
  have h := getApiSignature_lowerHex secret channel requestParam ts
  refine ⟨h, by simp [canonicalString], ?_, ?_⟩
  · rw [h, lowerHex_length, hmacSha512_length]
  · rw [h]; exact lowerHex_all _

theorem natDigits_append (n : Nat) : ∀ fuel acc, n < fuel →
    natDigits fuel n acc = natDigits (n + 1) n [] ++ acc := by
  induction n using Nat.strong_induction_on with
  | _ n ih =>
    intro fuel acc hf
    obtain ⟨k, rfl⟩ : ∃ k, fuel = k + 1 := ⟨fuel - 1, by omega⟩
    by_cases h : n < 10
    · simp [natDigits, h]
    · simp only [natDigits, h, if_false]
      rw [ih (n / 10) (by omega) k _ (by omega), ih (n / 10) (by omega) n _ (by omega)]
      simp

theorem formatNat_small (n : Nat) (h : n < 10) : formatNat n = [digitByte n] := by
  simp [formatNat, natDigits, h]

theorem formatNat_step (n : Nat) (h : ¬ n < 10) :
    formatNat n = formatNat (n / 10) ++ [digitByte (n % 10)] := by
  show natDigits (n + 1) n [] = natDigits (n / 10 + 1) (n / 10) [] ++ [digitByte (n % 10)]
  rw [natDigits, if_neg h, natDigits_append (n / 10) n _ (by omega)]

theorem digitByte_val (d : Nat) (h : d < 10) : (digitByte d).val = 48 + d := by
  simp [digitByte, byteOf, Fin.ofNat]; omega

theorem decimalValue_snoc (bs : GoString) (b : Byte) :
    decimalValue (bs ++ [b]) = decimalValue bs * 10 + (b.val - 48) := by
  simp [decimalValue]

theorem decimalValue_formatNat (n : Nat) : decimalValue (formatNat n) = n := by
  induction n using Nat.strong_induction_on with
  | _ n ih =>
    by_cases h : n < 10
    · rw [formatNat_small n h]
      simp [decimalValue, digitByte_val n h]
    · rw [formatNat_step n h, decimalValue_snoc, ih (n / 10) (by omega),
        digitByte_val (n % 10) (by omega)]
      omega

theorem formatNat_digits (n : Nat) : ∀ b ∈ formatNat n, isDigit b = true := by
  induction n using Nat.strong_induction_on with
  | _ n ih =>
    intro b hb
    by_cases h : n < 10
    · rw [formatNat_small n h] at hb
      simp only [List.mem_singleton] at hb
      subst hb
      simp [isDigit, digitByte_val n h]; omega
    · rw [formatNat_step n h] at hb
      simp only [List.mem_append, List.mem_singleton] at hb
      rcases hb with hb | hb
      · exact ih (n / 10) (by omega) b hb
      · subst hb
        simp [isDigit, digitByte_val (n % 10) (by omega)]; omega

theorem formatNat_ne_nil (n : Nat) : formatNat n ≠ [] := by
  by_cases h : n < 10
  · rw [formatNat_small n h]; simp
  · rw [formatNat_step n h]; simp

theorem formatNat_injective (n m : Nat) (h : formatNat n = formatNat m) : n = m := by
  rw [← decimalValue_formatNat n, ← decimalValue_formatNat m, h]

theorem formatInt_injective (i j : Int) (h : formatInt i = formatInt j) : i = j := by
  unfold formatInt at h
  by_cases hi : i < 0 <;> by_cases hj : j < 0 <;> simp only [hi, hj, if_true, if_false] at h
  · have := formatNat_injective _ _ (List.cons.inj h).2
    omega
  · exfalso
    obtain ⟨b, t, hbt⟩ := List.exists_cons_of_ne_nil (formatNat_ne_nil j.natAbs)
    have hb := formatNat_digits j.natAbs b (by rw [hbt]; simp)
    rw [hbt] at h
    have := (List.cons.inj h).1
    rw [← this] at hb
    revert hb; decide
  · exfalso
    obtain ⟨b, t, hbt⟩ := List.exists_cons_of_ne_nil (formatNat_ne_nil i.natAbs)
    have hb := formatNat_digits i.natAbs b (by rw [hbt]; simp)
    rw [hbt] at h
    have := (List.cons.inj h).1
    rw [this] at hb
    revert hb; decide
  · have := formatNat_injective _ _ h
    omega

theorem lowerHexDigit_injective (a b : Fin 16) (h : lowerHexDigit a.val = lowerHexDigit b.val) :
    a = b := by
  revert a b; decide

theorem lowerHex_injective (xs ys : GoString) (h : lowerHex xs = lowerHex ys) : xs = ys := by
  induction xs generalizing ys with
  | nil =>
    cases ys with
    | nil => rfl
    | cons y t => simp [lowerHex] at h
  | cons x s ih =>
    cases ys with
    | nil => simp [lowerHex] at h
    | cons y t =>
      simp only [lowerHex, List.flatMap_cons, List.cons_append, List.nil_append,
        List.cons.injEq] at h
      obtain ⟨h1, h2, h3⟩ := h
      have e1 := lowerHexDigit_injective ⟨x.val / 16, by omega⟩ ⟨y.val / 16, by omega⟩ h1
      have e2 := lowerHexDigit_injective ⟨x.val % 16, by omega⟩ ⟨y.val % 16, by omega⟩ h2
      simp only [Fin.mk.injEq] at e1 e2
      have : x = y := by apply Fin.ext; omega
      rw [this, ih t h3]

theorem hmacKeyBlock_zero_padding :
    hmacKeyBlock (lit "k") = hmacKeyBlock (lit "k" ++ [byteOf 0]) := by decide

/-- C3, as the spec words it, fails: the secrets `k` and `k` followed by a zero
byte differ, yet with the same channel, parameters and timestamp they give the
same digest. -/
theorem getApiSignature_secret_collision :
    lit "k" ≠ lit "k" ++ [byteOf 0]
      ∧ getApiSignature (lit "k") FUTURES_LOGIN [] (Int64.ofInt 1700000000)
        = getApiSignature (lit "k" ++ [byteOf 0]) FUTURES_LOGIN [] (Int64.ofInt 1700000000) := by
  refine ⟨by decide, ?_⟩
  simp only [getApiSignature, hmacSha512, hmacKeyBlock_zero_padding]

/-- C3, amended. The digest is a function of the key block `hmac.New` derives
from the secret and of the canonical string; changing the channel, the
parameter bytes or the timestamp alone changes the canonical string; and two
digests under one secret are equal exactly when the two HMAC values are. -/
theorem getApiSignature_message_sensitivity (secret c1 c2 p1 p2 : GoString)
    (t1 t2 : Int64) :
    getApiSignature secret c1 p1 t1
        = lowerHex (sha512 (xorPad 0x5c (hmacKeyBlock secret)
            ++ sha512 (xorPad 0x36 (hmacKeyBlock secret) ++ canonicalString c1 p1 t1)))
      ∧ (canonicalString c1 p1 t1 = canonicalString c2 p1 t1 ↔ c1 = c2)
      ∧ (canonicalString c1 p1 t1 = canonicalString c1 p2 t1 ↔ p1 = p2)
      ∧ (canonicalString c1 p1 t1 = canonicalString c1 p1 t2 ↔ t1 = t2)
      ∧ (getApiSignature secret c1 p1 t1 = getApiSignature secret c2 p2 t2 ↔
          hmacSha512 secret (canonicalString c1 p1 t1)
            = hmacSha512 secret (canonicalString c2 p2 t2)) := by
  refine ⟨?_, ?_, ?_, ?_, ?_⟩
  · rw [getApiSignature_lowerHex]; rfl
  · constructor
    · intro h
      simp only [canonicalString, List.append_assoc] at h
      exact List.append_cancel_right (List.append_cancel_left h)
    · rintro rfl; rfl
  · constructor
    · intro h
      simp only [canonicalString, List.append_assoc] at h
      exact List.append_cancel_right (List.append_cancel_left (List.append_cancel_left
        (List.append_cancel_left h)))
    · rintro rfl; rfl
  · constructor
    · intro h
      simp only [canonicalString, List.append_assoc] at h
      have h2 := List.append_cancel_left (List.append_cancel_left (List.append_cancel_left
        (List.append_cancel_left (List.append_cancel_left h))))
      rw [← formatInt_eq_decimal, ← formatInt_eq_decimal] at h2
      exact Subtype.ext (formatInt_injective _ _ h2)
    · rintro rfl; rfl
  · rw [getApiSignature_lowerHex, getApiSignature_lowerHex]
    constructor
    · exact lowerHex_injective _ _
    · intro h; rw [h]

theorem getApiSignature_collides_in_param (secret channel : GoString) (ts : Int64) :
    ∃ p1 p2, p1 ≠ p2 ∧
      getApiSignature secret channel p1 ts = getApiSignature secret channel p2 ts := by
  let f : GoString → Mathlib.Vector Byte 128 := fun p =>
    ⟨getApiSignature secret channel p ts, by
      rw [getApiSignature_lowerHex, lowerHex_length, hmacSha512_length]⟩
  obtain ⟨x, y, hne, h⟩ := Finite.exists_ne_map_eq_of_infinite f
  exact ⟨x, y, hne, congrArg Subtype.val h⟩

/-- C2. The login envelope of `sendAuth`, for a session and a clock reading
`t`, has channel `futures.login`, event `api`, time `t`, the session's key as
`api_key`, the decimal text of `t` as `timestamp`, empty request parameters,
and as `signature` the signer applied to the session's secret, the login
channel, empty parameters and the envelope's own time; that envelope is what
`sendAuth` serialises. -/
theorem authMessage_signed (b : WebSocket) (t ms : Int64) :
    (authMessage b.apiKey b.apiSecret t ms).Channel = lit "futures.login"
      ∧ (authMessage b.apiKey b.apiSecret t ms).Event = lit "api"
      ∧ (authMessage b.apiKey b.apiSecret t ms).Time = t
      ∧ (authMessage b.apiKey b.apiSecret t ms).Payload.ApiKey = b.apiKey
      ∧ (authMessage b.apiKey b.apiSecret t ms).Payload.Timestamp = decimal t.val
      ∧ (authMessage b.apiKey b.apiSecret t ms).Payload.RequestParam = []
      ∧ (authMessage b.apiKey b.apiSecret t ms).Payload.Signature
          = getApiSignature b.apiSecret (lit "futures.login") []
              (authMessage b.apiKey b.apiSecret t ms).Time
      ∧ sendAuth b t ms = marshalApiRequest (authMessage b.apiKey b.apiSecret t ms) := by
  refine ⟨rfl, rfl, rfl, rfl, ?_, rfl, rfl, rfl⟩
  simp [authMessage, formatInt_eq_decimal]

theorem pingMessage_fields_written (t : Int64) :
    (pingMessage t).fields.filter Field.written
      = [intField "time" false t, stringField "channel" false FUTURES_PING,
         structField "payload" true (lit "\x7b\x7d")] := by
  have h : encodeStruct ({} : ApiPayload).fields = lit "\x7b\x7d" := by decide
  simp [pingMessage, ApiRequest.fields, Field.written, stringField, intField, ptrIntField,
    structField, List.filter, h, lit]

/-- C5, on the code: for every clock reading the keepalive envelope is
serialised with three keys, `time`, `channel` and `payload`, the last with an
empty object as value; `app`, `id` and `event` are left out. -/
theorem pingMessage_wire (t : Int64) :
    writtenKeys (pingMessage t).fields = ["time", "channel", "payload"]
      ∧ marshalApiRequest (pingMessage t)
        = lit "\x7b\"time\":" ++ formatInt t.val
            ++ lit ",\"channel\":\"futures.ping\",\"payload\":\x7b\x7d\x7d" := by
  constructor
  · simp [writtenKeys, pingMessage_fields_written, intField, stringField, structField]
  · have h1 : appendString (lit "time") = lit "\"time\"" := by decide
    have h2 : appendString (lit "channel") ++ lit ":" ++ appendString FUTURES_PING
        ++ lit "," ++ (appendString (lit "payload") ++ lit ":" ++ lit "\x7b\x7d") ++ lit "\x7d"
        = lit "\"channel\":\"futures.ping\",\"payload\":\x7b\x7d\x7d" := by decide
    have h3 : lit "\x7b\"time\":" = lit "\x7b" ++ lit "\"time\"" ++ lit ":" := by decide
    have h4 : lit ",\"channel\":\"futures.ping\",\"payload\":\x7b\x7d\x7d"
        = lit "," ++ lit "\"channel\":\"futures.ping\",\"payload\":\x7b\x7d\x7d" := by decide
    have h5 : lit "\x7b\x7d" = lit "\x7b" ++ lit "\x7d" := by decide
    simp only [marshalApiRequest, encodeStruct, pingMessage_fields_written, List.map, joinComma,
      Field.text, intField, stringField, structField, h1, h3, h4, ← h2, List.append_assoc]
    simp only [pingMessage, List.nil_append, h5, List.append_assoc]

/-- C7, on the code: `Disconnect` panics on a freshly constructed session (nil
`cancel`), after a `Connect` whose dial failed, and after a `Connect` whose
login write failed, with nothing cancelled or closed; and after a failed
reconnect by the watchdog it cancels the context and clears the flag but then
panics on the nil connection, with nothing closed. -/
theorem Disconnect_panics (url apiKey apiSecret : GoString) (handler : Option MessageHandler)
    (ts ms : Int64) :
    (Disconnect (World.fresh (NewGatePrivateWebSocket url apiKey apiSecret handler []))).2
        = .panicked
      ∧ (Disconnect (World.fresh
          (NewGatePrivateWebSocket url apiKey apiSecret handler []))).1.cancelled = []
      ∧ (Disconnect (run (World.fresh (NewGatePrivateWebSocket url apiKey apiSecret handler []))
          [.connect false true ts ms])).2 = .panicked
      ∧ (Disconnect (run (World.fresh (NewGatePrivateWebSocket url apiKey apiSecret handler []))
          [.connect true false ts ms])).2 = .panicked
      ∧ (Disconnect (run (World.fresh (NewGatePrivateWebSocket url apiKey apiSecret handler []))
          [.connect true true ts ms, .readFailure, .poll false true ts ms])).2 = .panicked
      ∧ (Disconnect (run (World.fresh (NewGatePrivateWebSocket url apiKey apiSecret handler []))
          [.connect true true ts ms, .readFailure, .poll false true ts ms])).1.cancelled = [0]
      ∧ (Disconnect (run (World.fresh (NewGatePrivateWebSocket url apiKey apiSecret handler []))
          [.connect true true ts ms, .readFailure, .poll false true ts ms])).1.closed = [] := by
  refine ⟨rfl, rfl, rfl, rfl, rfl, rfl, rfl⟩

/-- C9, on the code: after a successful `Connect`, a read failure and one
watchdog poll whose reconnect succeeds, two watchdogs are running, and the
second connection generation has two dispatchers and one liveness monitor
started for it: the reconnect started two dispatchers and one more watchdog. -/
theorem reconnect_duplicates_activities (url apiKey apiSecret : GoString)
    (handler : Option MessageHandler) (ts ms ts2 ms2 : Int64) :
    (run (World.fresh (NewGatePrivateWebSocket url apiKey apiSecret handler []))
        [.connect true true ts ms, .readFailure, .poll true true ts2 ms2]).watchdogs = 2
      ∧ (run (World.fresh (NewGatePrivateWebSocket url apiKey apiSecret handler []))
        [.connect true true ts ms, .readFailure, .poll true true ts2 ms2]).started
          = [.dispatcher 1, .watchdog 1, .liveness 1,
             .dispatcher 2, .watchdog 2, .liveness 2, .dispatcher 2]
      ∧ countStarted (run (World.fresh (NewGatePrivateWebSocket url apiKey apiSecret handler []))
          [.connect true true ts ms, .readFailure, .poll true true ts2 ms2])
          (fun a => a == .dispatcher 2) = 2
      ∧ (run (World.fresh (NewGatePrivateWebSocket url apiKey apiSecret handler []))
        [.connect true true ts ms, .readFailure, .poll true true ts2 ms2]).generation = 2 := by
  refine ⟨rfl, rfl, ?_, rfl⟩
  have h : (run (World.fresh (NewGatePrivateWebSocket url apiKey apiSecret handler []))
      [.connect true true ts ms, .readFailure, .poll true true ts2 ms2]).started
      = [.dispatcher 1, .watchdog 1, .liveness 1,
         .dispatcher 2, .watchdog 2, .liveness 2, .dispatcher 2] := rfl
  rw [countStarted, h]
  decide

theorem handleIncomingMessages_runs (b : WebSocket) (h : MessageHandler) :
    ∀ (rs : List ReadResult) (pre : List GoString),
    ∃ ms : List GoString,
      ms.map ReadResult.message = rs.take ms.length
      ∧ (handleIncomingMessages { b with onMessage := some h } rs pre).calls = pre ++ ms
      ∧ (((handleIncomingMessages { b with onMessage := some h } rs pre).ending = .readFailure
            ∧ rs.get? ms.length = some .failure
            ∧ quiet h pre ms
            ∧ (handleIncomingMessages { b with onMessage := some h } rs pre).ws
                = { b with onMessage := some h, isConnected := false })
        ∨ ((handleIncomingMessages { b with onMessage := some h } rs pre).ending = .handlerError
            ∧ (∃ ms0 m, ms = ms0 ++ [m] ∧ quiet h pre ms0 ∧ h (pre ++ ms0) m = true)
            ∧ (handleIncomingMessages { b with onMessage := some h } rs pre).ws
                = { b with onMessage := some h })
        ∨ ((handleIncomingMessages { b with onMessage := some h } rs pre).ending = .waiting
            ∧ ms.length = rs.length
            ∧ quiet h pre ms
            ∧ (handleIncomingMessages { b with onMessage := some h } rs pre).ws
                = { b with onMessage := some h })) := by
  intro rs
  induction rs with
  | nil =>
    intro pre
    exact ⟨[], by simp, by simp [handleIncomingMessages],
      Or.inr (Or.inr ⟨rfl, rfl, trivial, rfl⟩)⟩
  | cons r rest ih =>
    intro pre
    cases r with
    | failure =>
      exact ⟨[], by simp, by simp [handleIncomingMessages],
        Or.inl ⟨rfl, rfl, trivial, rfl⟩⟩
    | message m =>
      by_cases hm : h pre m = true
      · refine ⟨[m], by simp, by simp [handleIncomingMessages, hm], Or.inr (Or.inl ?_)⟩
        refine ⟨by simp [handleIncomingMessages, hm], ⟨[], m, rfl, trivial, by simpa using hm⟩,
          by simp [handleIncomingMessages, hm]⟩
      · have hm0 : h pre m = false := by simpa using hm
        have e : handleIncomingMessages { b with onMessage := some h } (.message m :: rest) pre
            = handleIncomingMessages { b with onMessage := some h } rest (pre ++ [m]) := by
          simp [handleIncomingMessages, hm0]
        obtain ⟨ms, h1, h2, h3⟩ := ih (pre ++ [m])
        refine ⟨m :: ms, by simp [h1], by rw [e, h2]; simp, ?_⟩
        rw [e]
        rcases h3 with ⟨a, b1, c, d⟩ | ⟨a, ⟨ms0, m1, e1, e2, e3⟩, d⟩ | ⟨a, b1, c, d⟩
        · exact Or.inl ⟨a, by simpa using b1, ⟨hm0, c⟩, d⟩
        · refine Or.inr (Or.inl ⟨a, ⟨m :: ms0, m1, by simp [e1], ⟨hm0, e2⟩, ?_⟩, d⟩)
          simpa using e3
        · exact Or.inr (Or.inr ⟨a, by simp [b1], ⟨hm0, c⟩, d⟩)

/-- C10. With a handler registered, over any sequence of read results the
dispatcher calls the handler on exactly the messages of a prefix of the
sequence, in order and unchanged, and: either it returned on the read failure
that follows that prefix, no call having returned an error, and the flag is
false; or it returned on the error of the last of those calls, none before it
having returned one, and the session, flag included, is unchanged; or the
sequence is used up with no failure and no error, and it waits for the next
read with the session unchanged. -/
theorem handleIncomingMessages_spec (b : WebSocket) (h : MessageHandler) (rs : List ReadResult) :
    ∃ ms : List GoString,
      ms.map ReadResult.message = rs.take ms.length
      ∧ (handleIncomingMessages { b with onMessage := some h } rs []).calls = ms
      ∧ (((handleIncomingMessages { b with onMessage := some h } rs []).ending = .readFailure
            ∧ rs.get? ms.length = some .failure
            ∧ quiet h [] ms
            ∧ (handleIncomingMessages { b with onMessage := some h } rs []).ws
                = { b with onMessage := some h, isConnected := false })
        ∨ ((handleIncomingMessages { b with onMessage := some h } rs []).ending = .handlerError
            ∧ (∃ ms0 m, ms = ms0 ++ [m] ∧ quiet h [] ms0 ∧ h ms0 m = true)
            ∧ (handleIncomingMessages { b with onMessage := some h } rs []).ws
                = { b with onMessage := some h })
        ∨ ((handleIncomingMessages { b with onMessage := some h } rs []).ending = .waiting
            ∧ ms.length = rs.length
            ∧ quiet h [] ms
            ∧ (handleIncomingMessages { b with onMessage := some h } rs []).ws
                = { b with onMessage := some h })) := by
  simpa using handleIncomingMessages_runs b h rs []

theorem Disconnect_ctx_done (w : World) :
    ∀ x, (Disconnect w).1.ws.ctx = some x → (Disconnect w).1.cancelled.contains x = true := by
  intro x
  unfold Disconnect
  cases hc : w.ws.ctx with
  | none => simp [hc]
  | some y =>
    cases hn : w.ws.conn with
    | none =>
      simp only [hn]
      intro h
      have : y = x := by simpa [hc] using h
      simp [this]
    | some c =>
      simp only [hn]
      intro h
      have : y = x := by simpa [hc] using h
      simp [this]

theorem monitorSelect_keeps (w : World) :
    (monitorSelect w).1.connectCalls = w.connectCalls
      ∧ (monitorSelect w).1.inFlight = w.inFlight
      ∧ (monitorSelect w).1.ws.ctx = w.ws.ctx
      ∧ (monitorSelect w).1.cancelled = w.cancelled := by
  unfold monitorSelect
  split
  · exact ⟨rfl, rfl, rfl, rfl⟩
  · split <;> exact ⟨rfl, rfl, rfl, rfl⟩

theorem monitorGuard_closed (w : World)
    (hw : ∀ x, w.ws.ctx = some x → w.cancelled.contains x = true) :
    (monitorGuard w).1.connectCalls = w.connectCalls
      ∧ (monitorGuard w).1.inFlight = w.inFlight
      ∧ (monitorGuard w).1.ws.ctx = w.ws.ctx
      ∧ (monitorGuard w).1.cancelled = w.cancelled := by
  unfold monitorGuard
  split
  · exact ⟨rfl, rfl, rfl, rfl⟩
  · split
    · exact ⟨rfl, rfl, rfl, rfl⟩
    · rename_i x hx
      have hy := hw x hx
      simp only [hy, Bool.not_true, Bool.and_false, Bool.false_eq_true, if_false]
      exact monitorSelect_keeps w

theorem reconnectDue_closed (w : World)
    (hw : ∀ x, w.ws.ctx = some x → w.cancelled.contains x = true) :
    reconnectDue w = false := by
  unfold reconnectDue
  split
  · simp
  · rename_i x hx
    have h2 : x ∈ w.cancelled := by simpa using hw x hx
    simp [h2]

theorem step_keeps_closed (w : World) (e : Event) (he : e.isConnect = false)
    (hq : w.inFlight = 0)
    (hw : ∀ x, w.ws.ctx = some x → w.cancelled.contains x = true) :
    (step w e).connectCalls = w.connectCalls
      ∧ (step w e).inFlight = 0
      ∧ (∀ x, (step w e).ws.ctx = some x → (step w e).cancelled.contains x = true) := by
  cases e with
  | connect a b c d => simp [Event.isConnect] at he
  | readFailure =>
    simp only [step, readFailure]
    split
    · exact ⟨rfl, hq, hw⟩
    · exact ⟨rfl, hq, by simpa using hw⟩
  | handlerFailure =>
    simp only [step, handlerFailure]
    split
    · exact ⟨rfl, hq, hw⟩
    · exact ⟨rfl, hq, by simpa using hw⟩
  | disconnect =>
    refine ⟨?_, ?_, Disconnect_ctx_done w⟩
    · simp only [step, Disconnect]
      cases hc : w.ws.ctx with
      | none => rfl
      | some y => cases hn : w.ws.conn <;> rfl
    · simp only [step, Disconnect]
      cases hc : w.ws.ctx with
      | none => exact hq
      | some y => cases hn : w.ws.conn <;> exact hq
  | pollGuard =>
    obtain ⟨h1, h2, h3, h4⟩ := monitorGuard_closed w hw
    simp only [step]
    exact ⟨h1, by rw [h2, hq], by rw [h3, h4]; exact hw⟩
  | poll a b c d =>
    obtain ⟨h1, h2, h3, h4⟩ := monitorGuard_closed w hw
    simp only [step, monitorPoll, reconnectDue_closed w hw, Bool.false_eq_true, if_false]
    exact ⟨h1, by rw [h2, hq], by rw [h3, h4]; exact hw⟩
  | pollResume a b c d =>
    simp only [step, monitorResume, hq, if_true]
    exact ⟨trivial, trivial, hw⟩

theorem run_keeps_closed (es : List Event) : ∀ (w : World),
    (∀ e ∈ es, e.isConnect = false) → w.inFlight = 0 →
    (∀ x, w.ws.ctx = some x → w.cancelled.contains x = true) →
    (run w es).connectCalls = w.connectCalls ∧ (run w es).inFlight = 0 := by
  induction es with
  | nil => intro w _ hq _; exact ⟨rfl, hq⟩
  | cons e rest ih =>
    intro w he hq hw
    have h1 := step_keeps_closed w e (he e (by simp)) hq hw
    have h2 := ih (step w e) (fun e1 h => he e1 (by simp [h])) h1.2.1 h1.2.2
    have e1 : run w (e :: rest) = run (step w e) rest := rfl
    rw [e1]
    exact ⟨h2.1.trans h1.1, h2.2⟩

/-- When no watchdog is inside `Connect` at the moment `Disconnect` is called,
no sequence of later steps other than a call of `Connect` by the caller makes
a call of `Connect`, and no watchdog finds its guard true. -/
theorem Disconnect_quiet_no_reconnect (w : World) (hq : w.inFlight = 0) (es : List Event)
    (hes : ∀ e ∈ es, e.isConnect = false) :
    (run (Disconnect w).1 es).connectCalls = (Disconnect w).1.connectCalls
      ∧ (run (Disconnect w).1 es).inFlight = 0 := by
  have hq2 : (Disconnect w).1.inFlight = 0 := by
    simp only [Disconnect]
    cases hc : w.ws.ctx with
    | none => exact hq
    | some y => cases hn : w.ws.conn <;> exact hq
  exact run_keeps_closed es (Disconnect w).1 hes hq2 (Disconnect_ctx_done w)

/-- An iteration that nothing interrupts is its guard followed, when the guard
was true, by the rest of the iteration. -/
theorem monitorPoll_steps (w : World) (dialOk writeOk : Bool) (ts ms : Int64) :
    (reconnectDue w = true →
        step w (.poll dialOk writeOk ts ms)
          = run w [.pollGuard, .pollResume dialOk writeOk ts ms])
      ∧ (reconnectDue w = false → step w (.poll dialOk writeOk ts ms) = step w .pollGuard) := by
  constructor
  · intro h
    simp [step, run, monitorPoll, h]
  · intro h
    simp [step, monitorPoll, h]

/-- C6, on the code: a watchdog that found its guard true and is waiting in
`Connect` for the dial when the caller calls `Disconnect` goes on after it:
`Disconnect` returns having cancelled context 0, then the dial returns and
`Connect` installs the fresh context 1, which nothing has cancelled, and sets
the flag; after the next read failure a watchdog finds its guard true again
and calls `Connect` a third time, although the caller made no call of
`Connect` after `Disconnect`. -/
theorem Disconnect_during_reconnect (url apiKey apiSecret : GoString)
    (handler : Option MessageHandler) (ts ms ts2 ms2 ts3 ms3 : Int64) :
    (run (World.fresh (NewGatePrivateWebSocket url apiKey apiSecret handler []))
        [.connect true true ts ms, .readFailure, .pollGuard]).inFlight = 1
      ∧ (Disconnect (run (World.fresh (NewGatePrivateWebSocket url apiKey apiSecret handler []))
          [.connect true true ts ms, .readFailure, .pollGuard])).2 = .returned false
      ∧ (run (World.fresh (NewGatePrivateWebSocket url apiKey apiSecret handler []))
          [.connect true true ts ms, .readFailure, .pollGuard, .disconnect]).cancelled = [0]
      ∧ (run (World.fresh (NewGatePrivateWebSocket url apiKey apiSecret handler []))
          [.connect true true ts ms, .readFailure, .pollGuard, .disconnect]).connectCalls = 1
      ∧ (run (World.fresh (NewGatePrivateWebSocket url apiKey apiSecret handler []))
          [.connect true true ts ms, .readFailure, .pollGuard, .disconnect,
            .pollResume true true ts2 ms2]).ws.ctx = some 1
      ∧ (run (World.fresh (NewGatePrivateWebSocket url apiKey apiSecret handler []))
          [.connect true true ts ms, .readFailure, .pollGuard, .disconnect,
            .pollResume true true ts2 ms2]).cancelled = [0]
      ∧ (run (World.fresh (NewGatePrivateWebSocket url apiKey apiSecret handler []))
          [.connect true true ts ms, .readFailure, .pollGuard, .disconnect,
            .pollResume true true ts2 ms2]).ws.isConnected = true
      ∧ (run (World.fresh (NewGatePrivateWebSocket url apiKey apiSecret handler []))
          [.connect true true ts ms, .readFailure, .pollGuard, .disconnect,
            .pollResume true true ts2 ms2, .readFailure, .pollGuard]).inFlight = 1
      ∧ (run (World.fresh (NewGatePrivateWebSocket url apiKey apiSecret handler []))
          [.connect true true ts ms, .readFailure, .pollGuard, .disconnect,
            .pollResume true true ts2 ms2, .readFailure, .pollGuard,
            .pollResume true true ts3 ms3]).connectCalls = 3
      ∧ (run (World.fresh (NewGatePrivateWebSocket url apiKey apiSecret handler []))
          [.connect true true ts ms, .readFailure, .pollGuard, .disconnect,
            .pollResume true true ts2 ms2, .readFailure,
            .poll true true ts3 ms3]).connectCalls = 3 := by
  simp [run, step, World.fresh, NewGatePrivateWebSocket, Connect, readFailure, monitorGuard,
    monitorResume, monitorSelect, monitorPoll, reconnectDue, Disconnect]

theorem pingStep_stopped (s : PingState) (e : PingEvent) (h : s.running = false) :
    (pingStep s e).running = false ∧ (pingStep s e).writes = s.writes := by
  cases e <;> simp [pingStep, h]

theorem pingRun_stopped (es : List PingEvent) : ∀ s : PingState, s.running = false →
    (pingRun s es).running = false ∧ (pingRun s es).writes = s.writes := by
  induction es with
  | nil => intro s h; exact ⟨h, rfl⟩
  | cons e rest ih =>
    intro s h
    have h1 := pingStep_stopped s e h
    have h2 := ih (pingStep s e) h1.1
    exact ⟨h2.1, h2.2.trans h1.2⟩

theorem pingStep_budget (s : PingState) (e : PingEvent) :
    (pingStep s e).writes.length + (if (pingStep s e).tickPending then 1 else 0)
      ≤ s.writes.length + (if s.tickPending then 1 else 0) + tickCount [e] := by
  cases e with
  | tick => simp [pingStep, tickCount]
  | cancel => simp [pingStep, tickCount]
  | select a n ok =>
    simp only [pingStep, tickCount]
    by_cases hr : s.running = true
    · by_cases hp : s.tickPending = true
      · by_cases hc : s.cancelled = true
        · cases a <;> simp [hr, hp, hc]
        · simp [hr, hp, hc]
      · by_cases hc : s.cancelled = true <;> simp [hr, hp, hc]
    · simp [hr]

theorem pingRun_budget (es : List PingEvent) : ∀ s : PingState,
    (pingRun s es).writes.length + (if (pingRun s es).tickPending then 1 else 0)
      ≤ s.writes.length + (if s.tickPending then 1 else 0) + tickCount es := by
  induction es with
  | nil => intro s; simp [pingRun, tickCount]
  | cons e rest ih =>
    intro s
    have h1 := pingStep_budget s e
    have h2 := ih (pingStep s e)
    have h3 : tickCount (e :: rest) = tickCount [e] + tickCount rest := by
      simp only [tickCount, List.count_cons, List.count_nil]; omega
    have h4 : pingRun s (e :: rest) = pingRun (pingStep s e) rest := rfl
    rw [h4]
    omega

theorem pingStep_keepalive (s : PingState) (e : PingEvent)
    (h : ∀ wr ∈ s.writes, ∃ t, wr.1 = marshalApiRequest (pingMessage t)) :
    ∀ wr ∈ (pingStep s e).writes, ∃ t, wr.1 = marshalApiRequest (pingMessage t) := by
  cases e with
  | tick => simpa [pingStep] using h
  | cancel => simpa [pingStep] using h
  | select a n ok =>
    simp only [pingStep]
    split
    · exact h
    · split
      · intro wr hwr
        simp only [List.mem_append, List.mem_singleton] at hwr
        rcases hwr with hwr | hwr
        · exact h wr hwr
        · exact ⟨n, by rw [hwr]⟩
      · split <;> exact h

theorem pingRun_keepalive (es : List PingEvent) : ∀ s : PingState,
    (∀ wr ∈ s.writes, ∃ t, wr.1 = marshalApiRequest (pingMessage t)) →
    ∀ wr ∈ (pingRun s es).writes, ∃ t, wr.1 = marshalApiRequest (pingMessage t) := by
  induction es with
  | nil => intro s h; exact h
  | cons e rest ih => intro s h; exact ih (pingStep s e) (pingStep_keepalive s e h)

/-- C8, as the spec words it, fails: with interval 20, after a tick and then a
cancellation nothing has been sent, and the `select` that finds both the tick
and the cancellation ready may take the tick and send a keepalive after the
cancellation; and two ticks before one `select` give one keepalive, not two. -/
theorem ping_sends_after_cancel :
    (pingRun (pingStart 20) [.tick, .cancel]).cancelled = true
      ∧ (pingRun (pingStart 20) [.tick, .cancel]).writes = []
      ∧ (pingRun (pingStart 20)
          [.tick, .cancel, .select true (Int64.ofInt 1700000020) true]).writes
        = [(marshalApiRequest (pingMessage (Int64.ofInt 1700000020)), true)]
      ∧ (pingRun (pingStart 20)
          [.tick, .tick, .select true (Int64.ofInt 1700000040) true,
            .select true (Int64.ofInt 1700000040) true]).writes.length = 1 := by
  refine ⟨rfl, rfl, rfl, rfl⟩

/-- C8, amended. For a positive interval and every schedule of ticks,
cancellations and `select` runs: every write is a keepalive envelope; there are
at most as many writes as ticks; once the activity has returned no later event
makes it write; a `select` that finds a tick and no cancellation writes exactly
one keepalive and consumes the tick; a `select` that finds the cancellation and
no tick returns without writing. -/
theorem ping_schedule (interval : Int) (hpos : 0 < interval) (es later : List PingEvent)
    (takeTick : Bool) (now : Int64) (writeOk : Bool) :
    (pingStart interval).running = true
      ∧ (∀ wr ∈ (pingRun (pingStart interval) es).writes,
          ∃ t, wr.1 = marshalApiRequest (pingMessage t))
      ∧ (pingRun (pingStart interval) es).writes.length ≤ tickCount es
      ∧ ((pingRun (pingStart interval) es).running = false →
          (pingRun (pingRun (pingStart interval) es) later).writes
            = (pingRun (pingStart interval) es).writes)
      ∧ ((pingRun (pingStart interval) es).running = true →
          (pingRun (pingStart interval) es).tickPending = true →
          (pingRun (pingStart interval) es).cancelled = false →
          pingStep (pingRun (pingStart interval) es) (.select takeTick now writeOk)
            = { pingRun (pingStart interval) es with
                tickPending := false,
                writes := (pingRun (pingStart interval) es).writes
                  ++ [(marshalApiRequest (pingMessage now), writeOk)],
                running := writeOk })
      ∧ ((pingRun (pingStart interval) es).running = true →
          (pingRun (pingStart interval) es).tickPending = false →
          (pingRun (pingStart interval) es).cancelled = true →
          pingStep (pingRun (pingStart interval) es) (.select takeTick now writeOk)
            = { pingRun (pingStart interval) es with running := false }) := by
  refine ⟨by simp [pingStart, hpos], ?_, ?_, ?_, ?_, ?_⟩
  · exact pingRun_keepalive es _ (by simp [pingStart])
  · have h := pingRun_budget es (pingStart interval)
    have h0 : (pingStart interval).writes.length = 0 := rfl
    have h1 : (pingStart interval).tickPending = false := rfl
    rw [h0, h1] at h
    simp only [Bool.false_eq_true, if_false] at h
    omega
  · intro h
    exact (pingRun_stopped later _ h).2
  · intro h1 h2 h3
    simp [pingStep, h1, h2, h3]
  · intro h1 h2 h3
    simp [pingStep, h1, h2, h3]

theorem ping_schedule_witness :
    (0 : Int) < 20
      ∧ (pingRun (pingStart 20) [.tick, .select false (Int64.ofInt 20) true, .cancel,
          .select false (Int64.ofInt 21) true]).writes.length
        ≤ tickCount [.tick, .select false (Int64.ofInt 20) true, .cancel,
          .select false (Int64.ofInt 21) true] :=
  ⟨by decide, (ping_schedule 20 (by decide) _ [] true (Int64.ofInt 0) true).2.2.1⟩

theorem byteOf_val (n : Nat) : (byteOf n).val = n % 256 := rfl

theorem byteOf_eq (n : Nat) (b : Byte) (h : n = b.val) : byteOf n = b := by
  apply Fin.ext
  rw [byteOf_val, h]
  exact Nat.mod_eq_of_lt b.isLt

theorem decodeRune_two (s0 s1 : Byte) (t : GoString) (h0 : 0xC2 ≤ s0.val) (h1 : s0.val < 0xE0)
    (h2 : 0x80 ≤ s1.val) (h3 : s1.val ≤ 0xBF) :
    decodeRune (s0 :: s1 :: t) = (s0.val % 32 * 64 + s1.val % 64, 2)
      ∧ appendRune (s0.val % 32 * 64 + s1.val % 64) = [s0, s1] := by
  constructor
  · simp only [decodeRune]
    have a1 : ¬ s0.val < 0x80 := by omega
    have a2 : ¬ (s0.val < 0xC2 ∨ 0xF4 < s0.val) := by omega
    have a3 : ¬ s0.val = 0xE0 := by omega
    have a4 : ¬ s0.val = 0xF0 := by omega
    have a5 : ¬ s0.val = 0xED := by omega
    have a6 : ¬ s0.val = 0xF4 := by omega
    have a7 : ¬ (s1.val < 0x80 ∨ 0xBF < s1.val) := by omega
    simp only [a1, a2, a3, a4, a5, a6, a7, h1, if_true, if_false]
  · unfold appendRune
    have a1 : ¬ s0.val % 32 * 64 + s1.val % 64 < 0x80 := by omega
    have a2 : s0.val % 32 * 64 + s1.val % 64 < 0x800 := by omega
    simp only [a1, a2, if_true, if_false]
    rw [byteOf_eq _ s0 (by omega), byteOf_eq _ s1 (by omega)]

theorem decodeRune_three (s0 s1 s2 : Byte) (t : GoString) (h0 : 0xE0 ≤ s0.val)
    (h1 : s0.val < 0xF0) (h2 : 0x80 ≤ s1.val) (h3 : s1.val ≤ 0xBF)
    (h4 : s0.val = 0xE0 → 0xA0 ≤ s1.val) (h5 : s0.val = 0xED → s1.val ≤ 0x9F)
    (h6 : 0x80 ≤ s2.val) (h7 : s2.val ≤ 0xBF) :
    decodeRune (s0 :: s1 :: s2 :: t)
        = (s0.val % 16 * 4096 + s1.val % 64 * 64 + s2.val % 64, 3)
      ∧ appendRune (s0.val % 16 * 4096 + s1.val % 64 * 64 + s2.val % 64) = [s0, s1, s2] := by
  constructor
  · simp only [decodeRune]
    have a1 : ¬ s0.val < 0x80 := by omega
    have a2 : ¬ (s0.val < 0xC2 ∨ 0xF4 < s0.val) := by omega
    have a4 : ¬ s0.val = 0xF0 := by omega
    have a6 : ¬ s0.val = 0xF4 := by omega
    have a8 : ¬ s0.val < 0xE0 := by omega
    have a9 : ¬ (s2.val < 0x80 ∨ 0xBF < s2.val) := by omega
    simp only [a1, a2, a4, a6, a8, a9, h1, if_true, if_false]
    by_cases e0 : s0.val = 0xE0
    · have a7 : ¬ (s1.val < 0xA0 ∨ 0xBF < s1.val) := by have := h4 e0; omega
      have a5 : ¬ s0.val = 0xED := by omega
      simp [e0, a7]
    · by_cases ed : s0.val = 0xED
      · have a7 : ¬ (s1.val < 0x80 ∨ 0x9F < s1.val) := by have := h5 ed; omega
        simp [ed, a7]
      · have a7 : ¬ (s1.val < 0x80 ∨ 0xBF < s1.val) := by omega
        simp only [e0, ed, a7, if_false]
  · unfold appendRune
    have a1 : ¬ s0.val % 16 * 4096 + s1.val % 64 * 64 + s2.val % 64 < 0x80 := by omega
    have a2 : ¬ s0.val % 16 * 4096 + s1.val % 64 * 64 + s2.val % 64 < 0x800 := by
      by_cases e0 : s0.val = 0xE0
      · have := h4 e0; omega
      · omega
    have a3 : ¬ ((0xD800 ≤ s0.val % 16 * 4096 + s1.val % 64 * 64 + s2.val % 64
        ∧ s0.val % 16 * 4096 + s1.val % 64 * 64 + s2.val % 64 < 0xE000)
        ∨ 0x10FFFF < s0.val % 16 * 4096 + s1.val % 64 * 64 + s2.val % 64) := by
      by_cases ed : s0.val = 0xED
      · have := h5 ed; omega
      · omega
    have a4 : s0.val % 16 * 4096 + s1.val % 64 * 64 + s2.val % 64 < 0x10000 := by omega
    simp only [a1, a2, a3, a4, if_true, if_false]
    rw [byteOf_eq _ s0 (by omega), byteOf_eq _ s1 (by omega), byteOf_eq _ s2 (by omega)]

theorem decodeRune_four (s0 s1 s2 s3 : Byte) (t : GoString) (h0 : 0xF0 ≤ s0.val)
    (h1 : s0.val ≤ 0xF4) (h2 : 0x80 ≤ s1.val) (h3 : s1.val ≤ 0xBF)
    (h4 : s0.val = 0xF0 → 0x90 ≤ s1.val) (h5 : s0.val = 0xF4 → s1.val ≤ 0x8F)
    (h6 : 0x80 ≤ s2.val) (h7 : s2.val ≤ 0xBF) (h8 : 0x80 ≤ s3.val) (h9 : s3.val ≤ 0xBF) :
    decodeRune (s0 :: s1 :: s2 :: s3 :: t)
        = (s0.val % 8 * 262144 + s1.val % 64 * 4096 + s2.val % 64 * 64 + s3.val % 64, 4)
      ∧ appendRune (s0.val % 8 * 262144 + s1.val % 64 * 4096 + s2.val % 64 * 64 + s3.val % 64)
        = [s0, s1, s2, s3] := by
  constructor
  · simp only [decodeRune]
    have a1 : ¬ s0.val < 0x80 := by omega
    have a2 : ¬ (s0.val < 0xC2 ∨ 0xF4 < s0.val) := by omega
    have a3 : ¬ s0.val = 0xE0 := by omega
    have a5 : ¬ s0.val = 0xED := by omega
    have a8 : ¬ s0.val < 0xE0 := by omega
    have a8b : ¬ s0.val < 0xF0 := by omega
    have a9 : ¬ (s2.val < 0x80 ∨ 0xBF < s2.val) := by omega
    have a10 : ¬ (s3.val < 0x80 ∨ 0xBF < s3.val) := by omega
    simp only [a1, a2, a3, a5, a8, a8b, a9, a10, if_true, if_false]
    by_cases e0 : s0.val = 0xF0
    · have a7 : ¬ (s1.val < 0x90 ∨ 0xBF < s1.val) := by have := h4 e0; omega
      have a6 : ¬ s0.val = 0xF4 := by omega
      simp [e0, a7]
    · by_cases ed : s0.val = 0xF4
      · have a7 : ¬ (s1.val < 0x80 ∨ 0x8F < s1.val) := by have := h5 ed; omega
        simp [ed, a7]
      · have a7 : ¬ (s1.val < 0x80 ∨ 0xBF < s1.val) := by omega
        simp only [e0, ed, a7, if_false]
  · unfold appendRune
    have a1 : ¬ s0.val % 8 * 262144 + s1.val % 64 * 4096 + s2.val % 64 * 64 + s3.val % 64
        < 0x80 := by omega
    have a2 : ¬ s0.val % 8 * 262144 + s1.val % 64 * 4096 + s2.val % 64 * 64 + s3.val % 64
        < 0x800 := by
      by_cases e0 : s0.val = 0xF0
      · have := h4 e0; omega
      · omega
    have a4 : ¬ s0.val % 8 * 262144 + s1.val % 64 * 4096 + s2.val % 64 * 64 + s3.val % 64
        < 0x10000 := by
      by_cases e0 : s0.val = 0xF0
      · have := h4 e0; omega
      · omega
    have a3 : ¬ ((0xD800 ≤ s0.val % 8 * 262144 + s1.val % 64 * 4096 + s2.val % 64 * 64
          + s3.val % 64
        ∧ s0.val % 8 * 262144 + s1.val % 64 * 4096 + s2.val % 64 * 64 + s3.val % 64 < 0xE000)
        ∨ 0x10FFFF < s0.val % 8 * 262144 + s1.val % 64 * 4096 + s2.val % 64 * 64
          + s3.val % 64) := by
      by_cases ed : s0.val = 0xF4
      · have := h5 ed; omega
      · omega
    simp only [a1, a2, a3, a4, if_true, if_false]
    rw [byteOf_eq _ s0 (by omega), byteOf_eq _ s1 (by omega), byteOf_eq _ s2 (by omega),
      byteOf_eq _ s3 (by omega)]

theorem decodeRune_shape (b : Byte) (t : GoString) (hb : 0x80 ≤ b.val)
    (hv : ¬ ((decodeRune (b :: t)).1 = RuneError ∧ (decodeRune (b :: t)).2 = 1)) :
    (∃ s1 t1, t = s1 :: t1 ∧ 0xC2 ≤ b.val ∧ b.val < 0xE0 ∧ 0x80 ≤ s1.val ∧ s1.val ≤ 0xBF)
      ∨ (∃ s1 s2 t2, t = s1 :: s2 :: t2 ∧ 0xE0 ≤ b.val ∧ b.val < 0xF0 ∧ 0x80 ≤ s1.val
          ∧ s1.val ≤ 0xBF ∧ (b.val = 0xE0 → 0xA0 ≤ s1.val) ∧ (b.val = 0xED → s1.val ≤ 0x9F)
          ∧ 0x80 ≤ s2.val ∧ s2.val ≤ 0xBF)
      ∨ (∃ s1 s2 s3 t3, t = s1 :: s2 :: s3 :: t3 ∧ 0xF0 ≤ b.val ∧ b.val ≤ 0xF4
          ∧ 0x80 ≤ s1.val ∧ s1.val ≤ 0xBF ∧ (b.val = 0xF0 → 0x90 ≤ s1.val)
          ∧ (b.val = 0xF4 → s1.val ≤ 0x8F) ∧ 0x80 ≤ s2.val ∧ s2.val ≤ 0xBF
          ∧ 0x80 ≤ s3.val ∧ s3.val ≤ 0xBF) := by
  have a1 : ¬ b.val < 0x80 := by omega
  by_cases a2 : b.val < 0xC2 ∨ 0xF4 < b.val
  · exact absurd (by simp [decodeRune, a1, a2]) hv
  rcases t with _ | ⟨s1, t1⟩
  · exact absurd (by simp [decodeRune, a1, a2]) hv
  by_cases c1 : s1.val < (if b.val = 0xE0 then 0xA0 else if b.val = 0xF0 then 0x90 else 0x80)
      ∨ (if b.val = 0xED then 0x9F else if b.val = 0xF4 then 0x8F else 0xBF) < s1.val
  · exact absurd (by simp only [decodeRune, a1, a2, c1, if_true, if_false, and_self]) hv
  have r1 : 0x80 ≤ s1.val ∧ s1.val ≤ 0xBF ∧ (b.val = 0xE0 → 0xA0 ≤ s1.val)
      ∧ (b.val = 0xED → s1.val ≤ 0x9F) ∧ (b.val = 0xF0 → 0x90 ≤ s1.val)
      ∧ (b.val = 0xF4 → s1.val ≤ 0x8F) := by
    split_ifs at c1 <;> omega
  by_cases c2 : b.val < 0xE0
  · exact Or.inl ⟨s1, t1, rfl, by omega, c2, r1.1, r1.2.1⟩
  rcases t1 with _ | ⟨s2, t2⟩
  · exact absurd (by simp only [decodeRune, a1, a2, c1, c2, if_true, if_false, and_self]) hv
  by_cases c3 : s2.val < 0x80 ∨ 0xBF < s2.val
  · exact absurd (by simp only [decodeRune, a1, a2, c1, c2, c3, if_true, if_false, and_self]) hv
  by_cases c4 : b.val < 0xF0
  · exact Or.inr (Or.inl ⟨s1, s2, t2, rfl, by omega, c4, r1.1, r1.2.1, r1.2.2.1, r1.2.2.2.1,
      by omega, by omega⟩)
  rcases t2 with _ | ⟨s3, t3⟩
  · exact absurd (by simp only [decodeRune, a1, a2, c1, c2, c3, c4, if_true, if_false,
      and_self]) hv
  by_cases c5 : s3.val < 0x80 ∨ 0xBF < s3.val
  · exact absurd (by simp only [decodeRune, a1, a2, c1, c2, c3, c4, c5, if_true, if_false,
      and_self]) hv
  exact Or.inr (Or.inr ⟨s1, s2, s3, t3, rfl, by omega, by omega, r1.1, r1.2.1, r1.2.2.2.2.1,
    r1.2.2.2.2.2, by omega, by omega, by omega, by omega⟩)

theorem hexValue_hextable (d : Fin 16) : hexValue (hextable.getD d.val 0) = some d.val := by
  revert d; decide

theorem appendRune_ascii (b : Byte) (h : b.val < 0x80) : appendRune b.val = [b] := by
  simp [appendRune, h, byteOf_eq b.val b rfl]

theorem unquoteBody_escapeByte (b : Byte) (h : b.val < 0x80)
    (fuel : Nat) (tail : GoString) :
    unquoteBody (fuel + 1) (escapeByte b ++ tail) = prepend [b] (unquoteBody fuel tail) := by
  unfold escapeByte
  by_cases c1 : b.val = 0x5C ∨ b.val = 0x22
  · simp only [c1, if_true, List.cons_append, List.nil_append, unquoteBody]
    rcases c1 with c1 | c1 <;> simp [c1, byteOf_val, simpleEscape]
  simp only [c1, if_false]
  have l1 : lit "\\b" = [byteOf 0x5C, byteOf 0x62] := by decide
  have l2 : lit "\\f" = [byteOf 0x5C, byteOf 0x66] := by decide
  have l3 : lit "\\n" = [byteOf 0x5C, byteOf 0x6E] := by decide
  have l4 : lit "\\r" = [byteOf 0x5C, byteOf 0x72] := by decide
  have l5 : lit "\\t" = [byteOf 0x5C, byteOf 0x74] := by decide
  have l6 : lit "\\u00" = [byteOf 0x5C, byteOf 0x75, byteOf 0x30, byteOf 0x30] := by decide
  by_cases c2 : b.val = 8
  · simp [c2, l1, unquoteBody, byteOf_val, simpleEscape, byteOf_eq 8 b c2.symm]
  by_cases c3 : b.val = 12
  · simp [c3, l2, unquoteBody, byteOf_val, simpleEscape, byteOf_eq 12 b c3.symm]
  by_cases c4 : b.val = 10
  · simp [c4, l3, unquoteBody, byteOf_val, simpleEscape, byteOf_eq 10 b c4.symm]
  by_cases c5 : b.val = 13
  · simp [c5, l4, unquoteBody, byteOf_val, simpleEscape, byteOf_eq 13 b c5.symm]
  by_cases c6 : b.val = 9
  · simp [c6, l5, unquoteBody, byteOf_val, simpleEscape, byteOf_eq 9 b c6.symm]
  simp only [c2, c3, c4, c5, c6, if_false, l6, List.cons_append, List.nil_append]
  have g1 := hexValue_hextable ⟨b.val / 16, by omega⟩
  have g2 := hexValue_hextable ⟨b.val % 16, by omega⟩
  simp only at g1 g2
  have g0 : hexValue (byteOf 0x30) = some 0 := by decide
  have gu : getu4 (byteOf 0x5C :: byteOf 0x75 :: byteOf 0x30 :: byteOf 0x30
      :: hextable.getD (b.val / 16) 0 :: hextable.getD (b.val % 16) 0 :: tail)
      = some b.val := by
    simp only [getu4, g0, g1, g2, byteOf_val]
    simp
    omega
  have ns : ¬ (0xD800 ≤ b.val ∧ b.val < 0xE000) := by omega
  simp only [unquoteBody, gu, ns, if_false, appendRune_ascii b h]
  simp [byteOf_val]

theorem decodeRune_valid (b : Byte) (t : GoString) (hb : 0x80 ≤ b.val)
    (hv : ¬ ((decodeRune (b :: t)).1 = RuneError ∧ (decodeRune (b :: t)).2 = 1)) :
    ∃ bs t1, t = bs ++ t1 ∧ (decodeRune (b :: t)).2 = bs.length + 1
      ∧ appendRune (decodeRune (b :: t)).1 = b :: bs
      ∧ ∀ tail, decodeRune (b :: (bs ++ tail)) = decodeRune (b :: t) := by
  rcases decodeRune_shape b t hb hv with ⟨s1, t1, rfl, h⟩ | ⟨s1, s2, t2, rfl, h⟩
    | ⟨s1, s2, s3, t3, rfl, h⟩
  · obtain ⟨h0, h1, h2, h3⟩ := h
    have e := decodeRune_two b s1 t1 h0 h1 h2 h3
    refine ⟨[s1], t1, rfl, by rw [e.1]; rfl, by rw [e.1]; exact e.2, fun tail => ?_⟩
    rw [e.1]; exact (decodeRune_two b s1 tail h0 h1 h2 h3).1
  · obtain ⟨h0, h1, h2, h3, h4, h5, h6, h7⟩ := h
    have e := decodeRune_three b s1 s2 t2 h0 h1 h2 h3 h4 h5 h6 h7
    refine ⟨[s1, s2], t2, rfl, by rw [e.1]; rfl, by rw [e.1]; exact e.2, fun tail => ?_⟩
    rw [e.1]; exact (decodeRune_three b s1 s2 tail h0 h1 h2 h3 h4 h5 h6 h7).1
  · obtain ⟨h0, h1, h2, h3, h4, h5, h6, h7, h8, h9⟩ := h
    have e := decodeRune_four b s1 s2 s3 t3 h0 h1 h2 h3 h4 h5 h6 h7 h8 h9
    refine ⟨[s1, s2, s3], t3, rfl, by rw [e.1]; rfl, by rw [e.1]; exact e.2, fun tail => ?_⟩
    rw [e.1]; exact (decodeRune_four b s1 s2 s3 tail h0 h1 h2 h3 h4 h5 h6 h7 h8 h9).1

theorem getu4_line_separator (d : Nat) (hd : d = 8 ∨ d = 9) (tail : GoString) :
    getu4 (lit "\\u202" ++ [hextable.getD d 0] ++ tail) = some (0x2020 + d) := by
  rcases hd with rfl | rfl
  · have : lit "\\u202" ++ [hextable.getD 8 0] = [byteOf 0x5C, byteOf 0x75, byteOf 0x32,
      byteOf 0x30, byteOf 0x32, byteOf 0x38] := by decide
    rw [this]
    have h2 : hexValue (byteOf 0x32) = some 2 := by decide
    have h0 : hexValue (byteOf 0x30) = some 0 := by decide
    have h8 : hexValue (byteOf 0x38) = some 8 := by decide
    simp [getu4, h2, h0, h8, byteOf_val]
  · have : lit "\\u202" ++ [hextable.getD 9 0] = [byteOf 0x5C, byteOf 0x75, byteOf 0x32,
      byteOf 0x30, byteOf 0x32, byteOf 0x39] := by decide
    rw [this]
    have h2 : hexValue (byteOf 0x32) = some 2 := by decide
    have h0 : hexValue (byteOf 0x30) = some 0 := by decide
    have h8 : hexValue (byteOf 0x39) = some 9 := by decide
    simp [getu4, h2, h0, h8, byteOf_val]

theorem unquoteBody_line_separator (r : Nat) (hr : r = 0x2028 ∨ r = 0x2029) (fuel : Nat)
    (tail : GoString) :
    unquoteBody (fuel + 1) (lit "\\u202" ++ [hextable.getD (r % 16) 0] ++ tail)
      = prepend (appendRune r) (unquoteBody fuel tail) := by
  have hd : r % 16 = 8 ∨ r % 16 = 9 := by omega
  have g := getu4_line_separator (r % 16) hd tail
  have hr2 : 0x2020 + r % 16 = r := by omega
  rw [hr2] at g
  have l : lit "\\u202" = [byteOf 0x5C, byteOf 0x75, byteOf 0x32, byteOf 0x30, byteOf 0x32] := by
    decide
  rw [l] at g ⊢
  simp only [List.cons_append, List.nil_append] at g ⊢
  have ns : ¬ (0xD800 ≤ r ∧ r < 0xE000) := by omega
  simp only [unquoteBody, g, ns, if_false]
  simp [byteOf_val]

theorem decodeRune_ascii (b : Byte) (t : GoString) (h : b.val < 0x80) :
    decodeRune (b :: t) = (b.val, 1) := by
  simp [decodeRune, h]

theorem unquoteBody_quote (fuel : Nat) (rest : GoString) :
    unquoteBody (fuel + 1) (byteOf 0x22 :: rest) = some ([], rest) := by
  simp [unquoteBody, byteOf_val]

theorem escapeByte_length (b : Byte) : 1 ≤ (escapeByte b).length := by
  have l1 : (lit "\\b").length = 2 := by decide
  have l2 : (lit "\\f").length = 2 := by decide
  have l3 : (lit "\\n").length = 2 := by decide
  have l4 : (lit "\\r").length = 2 := by decide
  have l5 : (lit "\\t").length = 2 := by decide
  unfold escapeByte
  split_ifs <;> simp [l1, l2, l3, l4, l5]

theorem unquoteBody_appendStringBody : ∀ (n : Nat) (s : GoString), validString n s = true →
    ∀ (fuel : Nat) (rest : GoString), (appendStringBody n s).length < fuel →
    unquoteBody fuel (appendStringBody n s ++ byteOf 0x22 :: rest) = some (s, rest) := by
  intro n
  induction n with
  | zero =>
    intro s hv fuel rest hf
    have hs : s = [] := by simpa [validString] using hv
    subst hs
    obtain ⟨f, rfl⟩ : ∃ f, fuel = f + 1 := ⟨fuel - 1, by omega⟩
    simpa [appendStringBody] using unquoteBody_quote f rest
  | succ n ih =>
    intro s hv fuel rest hf
    obtain ⟨f, rfl⟩ : ∃ f, fuel = f + 1 := ⟨fuel - 1, by omega⟩
    cases s with
    | nil => simpa [appendStringBody] using unquoteBody_quote f rest
    | cons b t =>
      by_cases hb : b.val < 0x80
      · have hvt : validString n t = true := by
          have hne : ¬ (b.val = RuneError) := by simp only [RuneError]; omega
          simp only [validString, decodeRune_ascii b t hb] at hv
          simpa [hne] using hv
        by_cases hs : htmlSafe b = true
        · have e : appendStringBody (n + 1) (b :: t) = b :: appendStringBody n t := by
            simp [appendStringBody, hb, hs]
          rw [e] at hf ⊢
          have hf2 : (appendStringBody n t).length < f := by simpa using hf
          have c1 : ¬ b.val = 0x22 := by
            intro h; simp [htmlSafe, h] at hs
          have c2 : ¬ b.val = 0x5C := by
            intro h; simp [htmlSafe, h] at hs
          have c3 : ¬ b.val < 0x20 := by
            intro h
            have : ¬ (32 ≤ b.val) := by omega
            simp [htmlSafe, this] at hs
          simp only [List.cons_append, unquoteBody, c1, c2, c3, hb, if_true, if_false]
          rw [ih t hvt f rest hf2]
          rfl
        · have e : appendStringBody (n + 1) (b :: t) = escapeByte b ++ appendStringBody n t := by
            simp [appendStringBody, hb, hs]
          rw [e] at hf ⊢
          have hf2 : (appendStringBody n t).length < f := by
            have := escapeByte_length b
            simp only [List.length_append] at hf; omega
          rw [List.append_assoc, unquoteBody_escapeByte b hb, ih t hvt f rest hf2]
          rfl
      · have hb2 : 0x80 ≤ b.val := by omega
        have hne : ¬ ((decodeRune (b :: t)).1 = RuneError ∧ (decodeRune (b :: t)).2 = 1) := by
          intro h
          simp [validString, h] at hv
        obtain ⟨bs, t1, rfl, hsz, hap, hdec⟩ := decodeRune_valid b t hb2 hne
        have hdrop : (bs ++ t1).drop ((decodeRune (b :: (bs ++ t1))).2 - 1) = t1 := by
          rw [hsz]; simp
        have hvt : validString n t1 = true := by
          simp only [validString, hne, if_false, hdrop] at hv
          exact hv
        have c1 : ¬ b.val = 0x22 := by omega
        have c2 : ¬ b.val = 0x5C := by omega
        have c3 : ¬ b.val < 0x20 := by omega
        by_cases hls : (decodeRune (b :: (bs ++ t1))).1 = 0x2028
            ∨ (decodeRune (b :: (bs ++ t1))).1 = 0x2029
        · have e : appendStringBody (n + 1) (b :: (bs ++ t1))
              = lit "\\u202" ++ [hextable.getD ((decodeRune (b :: (bs ++ t1))).1 % 16) 0]
                ++ appendStringBody n t1 := by
            simp only [appendStringBody, hb, hne, hls, if_true, if_false, hdrop]
          rw [e] at hf ⊢
          have hf2 : (appendStringBody n t1).length < f := by
            have l5 : (lit "\\u202").length = 5 := by decide
            simp only [List.length_append, l5] at hf; omega
          rw [List.append_assoc, unquoteBody_line_separator _ hls, ih t1 hvt f rest hf2, hap]
          simp [prepend]
        · have e : appendStringBody (n + 1) (b :: (bs ++ t1))
              = (b :: bs) ++ appendStringBody n t1 := by
            simp only [appendStringBody, hb, if_false]
            rw [if_neg hne, if_neg hls, hdrop, hsz]
            simp
          rw [e] at hf ⊢
          have hf2 : (appendStringBody n t1).length < f := by
            simp only [List.length_append, List.length_cons] at hf; omega
          have hd2 := hdec (appendStringBody n t1 ++ byteOf 0x22 :: rest)
          have e2 : (b :: bs) ++ appendStringBody n t1 ++ byteOf 0x22 :: rest
              = b :: (bs ++ (appendStringBody n t1 ++ byteOf 0x22 :: rest)) := by simp
          rw [e2]
          simp only [unquoteBody, c1, c2, c3, hb, if_false, hd2, hsz, hap]
          simp only [Nat.add_sub_cancel, List.drop_left]
          rw [ih t1 hvt f rest hf2]
          simp [prepend]

theorem unquoteBody_appendString (s : GoString) (hv : validUTF8 s = true) (tail : GoString) :
    unquoteBody (appendStringBody s.length s ++ byteOf 0x22 :: tail).length
        (appendStringBody s.length s ++ byteOf 0x22 :: tail) = some (s, tail) :=
  unquoteBody_appendStringBody s.length s hv _ tail (by simp)

theorem appendString_append (s tail : GoString) :
    appendString s ++ tail
      = byteOf 0x22 :: (appendStringBody s.length s ++ byteOf 0x22 :: tail) := by
  simp [appendString]

theorem readValue_string (s : GoString) (hv : validUTF8 s = true) (tail : GoString) :
    readValue (appendString s ++ tail) = some (.str s, tail) := by
  rw [appendString_append]
  simp only [readValue, byteOf_val]
  simp only [Nat.reduceMod, if_true]
  rw [unquoteBody_appendString s hv tail]
  rfl

theorem skipSpace_cons (b : Byte) (t : GoString) (h : isSpace b = false) :
    skipSpace (b :: t) = b :: t := by
  simp [skipSpace, List.dropWhile, h]

theorem skipSpace_appendString (s tail : GoString) :
    skipSpace (appendString s ++ tail) = appendString s ++ tail := by
  rw [appendString_append]
  exact skipSpace_cons _ _ (by decide)

theorem formatNat_head (n : Nat) (hn : n ≠ 0) :
    ∃ d r, formatNat n = d :: r ∧ 0x31 ≤ d.val ∧ d.val ≤ 0x39 := by
  induction n using Nat.strong_induction_on with
  | _ n ih =>
    by_cases h : n < 10
    · refine ⟨digitByte n, [], formatNat_small n h, ?_, ?_⟩ <;>
        rw [digitByte_val n h] <;> omega
    · obtain ⟨d, r, e, h1, h2⟩ := ih (n / 10) (by omega) (by omega)
      exact ⟨d, r ++ [digitByte (n % 10)], by rw [formatNat_step n h, e]; rfl, h1, h2⟩

theorem formatNat_zero : formatNat 0 = [byteOf 0x30] := by decide

theorem all_isDigit_formatNat (n : Nat) : (formatNat n).all isDigit = true := by
  simpa [List.all_eq_true] using formatNat_digits n

theorem dropWhile_all (p : Byte → Bool) (l tail : GoString) (h : l.all p = true)
    (ht : ∀ b t, tail = b :: t → p b = false) :
    (l ++ tail).dropWhile p = tail ∧ (l ++ tail).takeWhile p = l := by
  induction l with
  | nil =>
    cases tail with
    | nil => simp
    | cons b t => simp [List.dropWhile, List.takeWhile, ht b t rfl]
  | cons a l ih =>
    simp only [List.all_cons, Bool.and_eq_true] at h
    simp [List.dropWhile, List.takeWhile, h.1, ih h.2]

theorem validNumber_formatNat (n : Nat) :
    (match formatNat n with
      | [] => false
      | d :: r =>
        if d.val = 0x30 then validFraction r
        else isDigit d && validFraction (r.dropWhile isDigit)) = true := by
  by_cases hn : n = 0
  · subst hn; rw [formatNat_zero]; decide
  · obtain ⟨d, r, e, h1, h2⟩ := formatNat_head n hn
    have hall := all_isDigit_formatNat n
    rw [e] at hall ⊢
    simp only [List.all_cons, Bool.and_eq_true] at hall
    have hd : ¬ d.val = 0x30 := by omega
    have hr := (dropWhile_all isDigit r [] hall.2 (by simp)).1
    simp only [List.append_nil] at hr
    simp [hd, hall.1, hr, validFraction]

theorem validNumber_formatInt (i : Int) : validNumber (formatInt i) = true := by
  unfold formatInt
  by_cases hi : i < 0
  · simp only [hi, if_true, validNumber, byteOf_val]
    simpa using validNumber_formatNat i.natAbs
  · simp only [hi, if_false, validNumber]
    have hv := validNumber_formatNat i.natAbs
    rcases hfn : formatNat i.natAbs with _ | ⟨d, r⟩
    · exact absurd hfn (formatNat_ne_nil _)
    · rw [hfn] at hv
      have hd := formatNat_digits i.natAbs d (by rw [hfn]; simp)
      have hd2 : ¬ d.val = 0x2D := by
        intro h; simp [isDigit, h] at hd
      simpa [hd2] using hv

theorem parseInt64_formatInt (i : Int64) : parseInt64 (formatInt i.val) = some i := by
  have hall := all_isDigit_formatNat i.val.natAbs
  have hne := formatNat_ne_nil i.val.natAbs
  have hval := decimalValue_formatNat i.val.natAbs
  unfold formatInt
  by_cases hi : i.val < 0
  · simp only [hi, if_true, parseInt64, byteOf_val]
    have e : (-(decimalValue (formatNat i.val.natAbs) : Int)) = i.val := by
      rw [hval]; omega
    have hp : -9223372036854775808 ≤ i.val ∧ i.val < 9223372036854775808 := by
      have := i.property; omega
    simp only [hall, hne, e, List.isEmpty_eq_true, decide_True, decide_False, Bool.not_false,
      Bool.not_true, Bool.true_and, Bool.and_self, if_true, List.drop_succ_cons, List.drop_zero]
    simp [hne, hp]
  · simp only [hi, if_false, parseInt64]
    rcases hfn : formatNat i.val.natAbs with _ | ⟨d, r⟩
    · exact absurd hfn hne
    · have hd := formatNat_digits i.val.natAbs d (by rw [hfn]; simp)
      have hd2 : ¬ d.val = 0x2D := by
        intro h; simp [isDigit, h] at hd
      rw [hfn] at hall hval
      have e : ((decimalValue (d :: r) : Nat) : Int) = i.val := by
        rw [hval]; omega
      have hp : -9223372036854775808 ≤ i.val ∧ i.val < 9223372036854775808 := by
        have := i.property; omega
      simp only [hd2, decide_False, Bool.false_eq_true, if_false]
      simp [hall, e, hp]

theorem formatInt_head (i : Int) :
    ∃ d r, formatInt i = d :: r ∧ (isDigit d = true ∨ d.val = 0x2D) := by
  unfold formatInt
  by_cases hi : i < 0
  · exact ⟨byteOf 45, formatNat i.natAbs, by simp [hi], Or.inr rfl⟩
  · rcases hfn : formatNat i.natAbs with _ | ⟨d, r⟩
    · exact absurd hfn (formatNat_ne_nil _)
    · exact ⟨d, r, by simp [hi, hfn], Or.inl (formatNat_digits i.natAbs d (by rw [hfn]; simp))⟩

theorem all_isNumberByte_formatInt (i : Int) : (formatInt i).all isNumberByte = true := by
  have h := all_isDigit_formatNat i.natAbs
  have h2 : (formatNat i.natAbs).all isNumberByte = true := by
    simp only [List.all_eq_true] at h ⊢
    intro b hb
    simp [isNumberByte, h b hb]
  unfold formatInt
  by_cases hi : i < 0
  · simp only [hi, if_true, List.all_cons, h2, Bool.and_true]
    decide
  · simp only [hi, if_false, h2]

theorem startsWith_cons_ne (c : Byte) (t : GoString) (p : Byte) (ps : GoString) (h : c ≠ p) :
    startsWith (c :: t) (p :: ps) = false := by
  simp [startsWith, h]

theorem isDigit_not_space (c : Byte) (h : isDigit c = true) : isSpace c = false := by
  simp only [isDigit, Bool.and_eq_true, decide_eq_true_eq] at h
  simp only [isSpace, Bool.or_eq_false_iff, beq_eq_false_iff_ne, ne_eq]
  omega

theorem readValue_int (i : Int64) (d : Byte) (tail : GoString)
    (hd : d.val = 0x2C ∨ d.val = 0x7D) :
    readValue (formatInt i.val ++ d :: tail) = some (.num (formatInt i.val), d :: tail)
      ∧ skipSpace (formatInt i.val ++ d :: tail) = formatInt i.val ++ d :: tail := by
  obtain ⟨c, r, e, hc⟩ := formatInt_head i.val
  have hdn : isNumberByte d = false := by
    rcases hd with h | h <;> simp [isNumberByte, isDigit, h]
  have hs := dropWhile_all isNumberByte (formatInt i.val) (d :: tail)
    (all_isNumberByte_formatInt i.val) (by intro b t h; cases h; exact hdn)
  have hvn := validNumber_formatInt i.val
  have c1 : ¬ c.val = 0x22 := by
    rcases hc with h | h
    · intro h2; simp [isDigit, h2] at h
    · omega
  have ct : c ≠ byteOf 0x74 := by
    rcases hc with h | h
    · intro h2; subst h2; revert h; decide
    · intro h2; subst h2; revert h; decide
  have cf : c ≠ byteOf 0x66 := by
    rcases hc with h | h
    · intro h2; subst h2; revert h; decide
    · intro h2; subst h2; revert h; decide
  have cn : c ≠ byteOf 0x6E := by
    rcases hc with h | h
    · intro h2; subst h2; revert h; decide
    · intro h2; subst h2; revert h; decide
  have lt : lit "true" = byteOf 0x74 :: lit "rue" := by decide
  have lf : lit "false" = byteOf 0x66 :: lit "alse" := by decide
  have ln : lit "null" = byteOf 0x6E :: lit "ull" := by decide
  constructor
  · have hs1 := hs.1
    have hs2 := hs.2
    rw [e] at hs1 hs2 ⊢
    simp only [List.cons_append] at hs1 hs2 ⊢
    simp only [readValue, c1, if_false, lt, lf, ln, startsWith_cons_ne _ _ _ _ ct,
      startsWith_cons_ne _ _ _ _ cf, startsWith_cons_ne _ _ _ _ cn, Bool.false_eq_true,
      hs1, hs2]
    rw [e] at hvn
    simp [hvn]
  · rw [e]
    refine skipSpace_cons _ _ ?_
    rcases hc with h | h
    · exact isDigit_not_space c h
    · simp [isSpace, h]

theorem readValue_bool (v : Bool) (d : Byte) (tail : GoString) :
    readValue ((if v then lit "true" else lit "false") ++ d :: tail)
        = some (.bool v, d :: tail)
      ∧ skipSpace ((if v then lit "true" else lit "false") ++ d :: tail)
        = (if v then lit "true" else lit "false") ++ d :: tail := by
  have lt : lit "true" = [byteOf 0x74, byteOf 0x72, byteOf 0x75, byteOf 0x65] := by decide
  have lf : lit "false"
      = [byteOf 0x66, byteOf 0x61, byteOf 0x6C, byteOf 0x73, byteOf 0x65] := by decide
  have ln : lit "null" = [byteOf 0x6E, byteOf 0x75, byteOf 0x6C, byteOf 0x6C] := by decide
  have e1 : (byteOf 0x66 = byteOf 0x74) = False := by simp; decide
  cases v
  · simp only [Bool.false_eq_true, if_false, lf]
    constructor
    · simp [readValue, startsWith, byteOf_val, lt, lf, ln, e1]
    · exact skipSpace_cons _ _ (by decide)
  · simp only [if_true, lt]
    constructor
    · simp [readValue, startsWith, byteOf_val, lt, lf, ln]
    · exact skipSpace_cons _ _ (by decide)

theorem readMembers_member (f : Field) (v : JToken) (hk : validUTF8 (lit f.name) = true)
    (d : Byte) (tail : GoString) (hd : d.val = 0x2C ∨ d.val = 0x7D)
    (hr : readValue (f.encoded ++ d :: tail) = some (v, d :: tail))
    (hs : skipSpace (f.encoded ++ d :: tail) = f.encoded ++ d :: tail) (fuel : Nat) :
    readMembers (fuel + 1) (f.text ++ d :: tail)
      = if d.val = 0x2C then
          (readMembers fuel tail).map (fun p => ((lit f.name, v) :: p.1, p.2))
        else some ([(lit f.name, v)], tail) := by
  have lc : lit ":" = [byteOf 0x3A] := by decide
  have e : f.text ++ d :: tail
      = byteOf 0x22 :: (appendStringBody (lit f.name).length (lit f.name)
          ++ byteOf 0x22 :: (byteOf 0x3A :: (f.encoded ++ d :: tail))) := by
    simp [Field.text, appendString, lc]
  have hq := unquoteBody_appendString (lit f.name) hk (byteOf 0x3A :: (f.encoded ++ d :: tail))
  have hsp : isSpace d = false := by
    rcases hd with h | h <;> simp [isSpace, h]
  rw [e]
  simp only [readMembers]
  rw [skipSpace_cons _ _ (by decide)]
  simp only [byteOf_val, Nat.reduceMod, if_true]
  rw [hq]
  simp only []
  rw [skipSpace_cons (byteOf 0x3A) _ (by decide)]
  simp only [byteOf_val, Nat.reduceMod, if_true]
  rw [hs, hr]
  simp only []
  rw [skipSpace_cons d tail hsp]
  simp only []
  rcases hd with h | h
  · simp [h]
  · simp [h]

theorem readMembers_joinComma (l : List (Field × JToken))
    (hgood : ∀ ft ∈ l, validUTF8 (lit ft.1.name) = true ∧
        ∀ (d : Byte) (tail : GoString), (d.val = 0x2C ∨ d.val = 0x7D) →
          readValue (ft.1.encoded ++ d :: tail) = some (ft.2, d :: tail)
          ∧ skipSpace (ft.1.encoded ++ d :: tail) = ft.1.encoded ++ d :: tail) :
    l ≠ [] → ∀ (fuel : Nat) (rest : GoString), l.length ≤ fuel →
      readMembers fuel (joinComma (l.map (fun ft => ft.1.text)) ++ byteOf 0x7D :: rest)
        = some (l.map (fun ft => (lit ft.1.name, ft.2)), rest) := by
  induction l with
  | nil => intro h; exact absurd rfl h
  | cons ft l ih =>
    intro _ fuel rest hf
    obtain ⟨f, rfl⟩ : ∃ f, fuel = f + 1 := ⟨fuel - 1, by simp at hf; omega⟩
    have hg := hgood ft (by simp)
    cases l with
    | nil =>
      have h1 := hg.2 (byteOf 0x7D) rest (Or.inr rfl)
      have := readMembers_member ft.1 ft.2 hg.1 (byteOf 0x7D) rest (Or.inr rfl) h1.1 h1.2 f
      simpa [joinComma, byteOf_val] using this
    | cons ft2 l2 =>
      have lc : lit "," = [byteOf 0x2C] := by decide
      have e : joinComma ((ft :: ft2 :: l2).map (fun ft => ft.1.text)) ++ byteOf 0x7D :: rest
          = ft.1.text ++ byteOf 0x2C
            :: (joinComma ((ft2 :: l2).map (fun ft => ft.1.text)) ++ byteOf 0x7D :: rest) := by
        simp [joinComma, lc]
      have h1 := hg.2 (byteOf 0x2C)
        (joinComma ((ft2 :: l2).map (fun ft => ft.1.text)) ++ byteOf 0x7D :: rest) (Or.inl rfl)
      have h2 := readMembers_member ft.1 ft.2 hg.1 (byteOf 0x2C) _ (Or.inl rfl) h1.1 h1.2 f
      have h3 := ih (fun x hx => hgood x (by simp [hx])) (by simp) f rest
        (by simp at hf ⊢; omega)
      rw [e, h2, h3]
      simp [byteOf_val]

theorem assignMembers_filter_cons (q q2 : OrderParam) (w : Field × JToken → Bool)
    (g : Field × JToken → GoString × JToken) (ft : Field × JToken) (l : List (Field × JToken))
    (h : (if w ft = true then assignMember q (g ft) else some q) = some q2) :
    assignMembers q (((ft :: l).filter w).map g) = assignMembers q2 ((l.filter w).map g) := by
  by_cases hw : w ft = true
  · simp only [hw, if_true] at h
    simp [List.filter_cons, hw, assignMembers, h]
  · have hw2 : w ft = false := by simpa using hw
    simp only [hw2, Bool.false_eq_true, if_false, Option.some.injEq] at h
    subst h
    simp [List.filter_cons, hw2]

theorem fieldIndex_keys :
    fieldIndex (lit "contract") = some 0 ∧ fieldIndex (lit "size") = some 1
      ∧ fieldIndex (lit "iceberg") = some 2 ∧ fieldIndex (lit "price") = some 3
      ∧ fieldIndex (lit "close") = some 4 ∧ fieldIndex (lit "reduce_only") = some 5
      ∧ fieldIndex (lit "tif") = some 6 ∧ fieldIndex (lit "text") = some 7
      ∧ fieldIndex (lit "auto_size") = some 8 ∧ fieldIndex (lit "stp_act") = some 9 := by
  decide

theorem int64_zero (v : Int64) (h : v.val = 0) : v = Int64.ofInt 0 := Subtype.ext h

theorem assign_contract (q : OrderParam) (v : GoString) :
    (if (stringField "contract" false v).written = true then
        assignMember q (lit "contract", .str v) else some q)
      = some { q with Contract := v } := by
  simp [stringField, Field.written, assignMember, fieldIndex_keys.1, JToken.asString]

theorem assign_size (q : OrderParam) (v : Int64) (hq : q.Size = Int64.ofInt 0) :
    (if (intField "size" true v).written = true then
        assignMember q (lit "size", .num (formatInt v.val)) else some q)
      = some { q with Size := v } := by
  by_cases hz : v.val = 0
  · have := int64_zero v hz
    subst this
    cases q
    simp only at hq
    subst hq
    simp [intField, Field.written, Int64.ofInt]
  · simp [intField, Field.written, hz, assignMember, fieldIndex_keys.2.1, JToken.asInt64,
      parseInt64_formatInt]

theorem assign_iceberg (q : OrderParam) (v : Int64) (hq : q.Iceberg = Int64.ofInt 0) :
    (if (intField "iceberg" true v).written = true then
        assignMember q (lit "iceberg", .num (formatInt v.val)) else some q)
      = some { q with Iceberg := v } := by
  by_cases hz : v.val = 0
  · have := int64_zero v hz
    subst this
    cases q
    simp only at hq
    subst hq
    simp [intField, Field.written, Int64.ofInt]
  · simp [intField, Field.written, hz, assignMember, fieldIndex_keys.2.2.1, JToken.asInt64,
      parseInt64_formatInt]

theorem assign_price (q : OrderParam) (v : GoString) (hq : q.Price = []) :
    (if (stringField "price" true v).written = true then
        assignMember q (lit "price", .str v) else some q)
      = some { q with Price := v } := by
  by_cases hz : v = []
  · subst hz
    cases q
    simp only at hq
    subst hq
    simp [stringField, Field.written]
  · simp [stringField, Field.written, hz, assignMember, fieldIndex_keys.2.2.2.1, JToken.asString]

theorem assign_close (q : OrderParam) (v : Bool) (hq : q.Close = false) :
    (if (boolField "close" true v).written = true then
        assignMember q (lit "close", .bool v) else some q)
      = some { q with Close := v } := by
  cases v
  · cases q
    simp only at hq
    subst hq
    simp [boolField, Field.written]
  · simp [boolField, Field.written, assignMember, fieldIndex_keys.2.2.2.2.1, JToken.asBool]

theorem assign_reduce_only (q : OrderParam) (v : Bool) (hq : q.ReduceOnly = false) :
    (if (boolField "reduce_only" true v).written = true then
        assignMember q (lit "reduce_only", .bool v) else some q)
      = some { q with ReduceOnly := v } := by
  cases v
  · cases q
    simp only at hq
    subst hq
    simp [boolField, Field.written]
  · simp [boolField, Field.written, assignMember, fieldIndex_keys.2.2.2.2.2.1, JToken.asBool]

theorem assign_tif (q : OrderParam) (v : GoString) (hq : q.Tif = []) :
    (if (stringField "tif" true v).written = true then
        assignMember q (lit "tif", .str v) else some q)
      = some { q with Tif := v } := by
  by_cases hz : v = []
  · subst hz
    cases q
    simp only at hq
    subst hq
    simp [stringField, Field.written]
  · simp [stringField, Field.written, hz, assignMember, fieldIndex_keys.2.2.2.2.2.2.1, JToken.asString]

theorem assign_text (q : OrderParam) (v : GoString) (hq : q.Text = []) :
    (if (stringField "text" true v).written = true then
        assignMember q (lit "text", .str v) else some q)
      = some { q with Text := v } := by
  by_cases hz : v = []
  · subst hz
    cases q
    simp only at hq
    subst hq
    simp [stringField, Field.written]
  · simp [stringField, Field.written, hz, assignMember, fieldIndex_keys.2.2.2.2.2.2.2.1, JToken.asString]

theorem assign_auto_size (q : OrderParam) (v : GoString) (hq : q.AutoSize = []) :
    (if (stringField "auto_size" true v).written = true then
        assignMember q (lit "auto_size", .str v) else some q)
      = some { q with AutoSize := v } := by
  by_cases hz : v = []
  · subst hz
    cases q
    simp only at hq
    subst hq
    simp [stringField, Field.written]
  · simp [stringField, Field.written, hz, assignMember, fieldIndex_keys.2.2.2.2.2.2.2.2.1, JToken.asString]

theorem assign_stp_act (q : OrderParam) (v : Bool) (hq : q.StpAct = false) :
    (if (boolField "stp_act" true v).written = true then
        assignMember q (lit "stp_act", .bool v) else some q)
      = some { q with StpAct := v } := by
  cases v
  · cases q
    simp only at hq
    subst hq
    simp [boolField, Field.written]
  · simp [boolField, Field.written, assignMember, fieldIndex_keys.2.2.2.2.2.2.2.2.2, JToken.asBool]

theorem assignMembers_members (p : OrderParam) : assignMembers {} p.members = some p := by
  unfold OrderParam.members OrderParam.tokens
  rw [assignMembers_filter_cons {} { Contract := p.Contract } _ _ _ _
    (assign_contract {} p.Contract)]
  rw [assignMembers_filter_cons _ { Contract := p.Contract, Size := p.Size } _ _ _ _
    (assign_size _ p.Size rfl)]
  rw [assignMembers_filter_cons _
    { Contract := p.Contract, Size := p.Size, Iceberg := p.Iceberg } _ _ _ _
    (assign_iceberg _ p.Iceberg rfl)]
  rw [assignMembers_filter_cons _
    { Contract := p.Contract, Size := p.Size, Iceberg := p.Iceberg, Price := p.Price } _ _ _ _
    (assign_price _ p.Price rfl)]
  rw [assignMembers_filter_cons _
    { Contract := p.Contract, Size := p.Size, Iceberg := p.Iceberg, Price := p.Price,
      Close := p.Close } _ _ _ _ (assign_close _ p.Close rfl)]
  rw [assignMembers_filter_cons _
    { Contract := p.Contract, Size := p.Size, Iceberg := p.Iceberg, Price := p.Price,
      Close := p.Close, ReduceOnly := p.ReduceOnly } _ _ _ _
    (assign_reduce_only _ p.ReduceOnly rfl)]
  rw [assignMembers_filter_cons _
    { Contract := p.Contract, Size := p.Size, Iceberg := p.Iceberg, Price := p.Price,
      Close := p.Close, ReduceOnly := p.ReduceOnly, Tif := p.Tif } _ _ _ _
    (assign_tif _ p.Tif rfl)]
  rw [assignMembers_filter_cons _
    { Contract := p.Contract, Size := p.Size, Iceberg := p.Iceberg, Price := p.Price,
      Close := p.Close, ReduceOnly := p.ReduceOnly, Tif := p.Tif, Text := p.Text } _ _ _ _
    (assign_text _ p.Text rfl)]
  rw [assignMembers_filter_cons _
    { Contract := p.Contract, Size := p.Size, Iceberg := p.Iceberg, Price := p.Price,
      Close := p.Close, ReduceOnly := p.ReduceOnly, Tif := p.Tif, Text := p.Text,
      AutoSize := p.AutoSize } _ _ _ _ (assign_auto_size _ p.AutoSize rfl)]
  rw [assignMembers_filter_cons _ p _ _ _ _ (assign_stp_act _ p.StpAct rfl)]
  rfl

theorem Field.text_length (f : Field) : 1 ≤ f.text.length := by
  simp [Field.text, appendString]

theorem joinComma_length (l : List (Field × JToken)) :
    l.length ≤ (joinComma (l.map (fun ft => ft.1.text))).length := by
  induction l with
  | nil => simp [joinComma]
  | cons ft l ih =>
    cases l with
    | nil =>
      have := Field.text_length ft.1
      simpa [joinComma] using this
    | cons ft2 l2 =>
      have := Field.text_length ft.1
      simp only [List.map_cons, joinComma, List.length_append, List.length_cons] at ih ⊢
      omega

theorem tokens_good (p : OrderParam) (hv : p.validText = true) :
    ∀ ft ∈ p.tokens, validUTF8 (lit ft.1.name) = true ∧
      ∀ (d : Byte) (tail : GoString), (d.val = 0x2C ∨ d.val = 0x7D) →
        readValue (ft.1.encoded ++ d :: tail) = some (ft.2, d :: tail)
        ∧ skipSpace (ft.1.encoded ++ d :: tail) = ft.1.encoded ++ d :: tail := by
  simp only [OrderParam.validText, Bool.and_eq_true] at hv
  obtain ⟨⟨⟨⟨h1, h2⟩, h3⟩, h4⟩, h5⟩ := hv
  intro ft hft
  simp only [OrderParam.tokens, List.mem_cons, List.mem_singleton, List.not_mem_nil,
    or_false] at hft
  rcases hft with rfl | rfl | rfl | rfl | rfl | rfl | rfl | rfl | rfl | rfl
  · exact ⟨(by decide : validUTF8 (lit "contract") = true), fun d tail _ =>
      ⟨readValue_string _ h1 _, skipSpace_appendString _ _⟩⟩
  · exact ⟨(by decide : validUTF8 (lit "size") = true), fun d tail hd => readValue_int _ d tail hd⟩
  · exact ⟨(by decide : validUTF8 (lit "iceberg") = true), fun d tail hd => readValue_int _ d tail hd⟩
  · exact ⟨(by decide : validUTF8 (lit "price") = true), fun d tail _ =>
      ⟨readValue_string _ h2 _, skipSpace_appendString _ _⟩⟩
  · exact ⟨(by decide : validUTF8 (lit "close") = true), fun d tail _ => readValue_bool _ d tail⟩
  · exact ⟨(by decide : validUTF8 (lit "reduce_only") = true), fun d tail _ => readValue_bool _ d tail⟩
  · exact ⟨(by decide : validUTF8 (lit "tif") = true), fun d tail _ =>
      ⟨readValue_string _ h3 _, skipSpace_appendString _ _⟩⟩
  · exact ⟨(by decide : validUTF8 (lit "text") = true), fun d tail _ =>
      ⟨readValue_string _ h4 _, skipSpace_appendString _ _⟩⟩
  · exact ⟨(by decide : validUTF8 (lit "auto_size") = true), fun d tail _ =>
      ⟨readValue_string _ h5 _, skipSpace_appendString _ _⟩⟩
  · exact ⟨(by decide : validUTF8 (lit "stp_act") = true), fun d tail _ => readValue_bool _ d tail⟩

theorem marshalOrderParam_eq (p : OrderParam) :
    marshalOrderParam p
      = byteOf 0x7B :: (joinComma ((p.tokens.filter (fun ft => ft.1.written)).map
          (fun ft => ft.1.text)) ++ [byteOf 0x7D]) := by
  have l1 : lit "\x7b" = [byteOf 0x7B] := by decide
  have l2 : lit "\x7d" = [byteOf 0x7D] := by decide
  have e : p.fields = p.tokens.map Prod.fst := rfl
  simp only [marshalOrderParam, encodeStruct, l1, l2, e, List.filter_map]
  simp [Function.comp_def]

theorem readObject_marshalOrderParam (p : OrderParam) (hv : p.validText = true) :
    readObject (marshalOrderParam p) = some p.members := by
  have hgood := tokens_good p hv
  have hne : p.tokens.filter (fun ft => ft.1.written) ≠ [] := by
    simp [OrderParam.tokens, List.filter_cons, stringField, Field.written]
  have hgood2 : ∀ ft ∈ p.tokens.filter (fun ft => ft.1.written), _ :=
    fun ft h => hgood ft (List.mem_filter.mp h).1
  have hlen := joinComma_length (p.tokens.filter (fun ft => ft.1.written))
  have hrm := readMembers_joinComma _ hgood2 hne (marshalOrderParam p).length []
    (by rw [marshalOrderParam_eq]; simp; omega)
  obtain ⟨ft, l, hl⟩ := List.exists_cons_of_ne_nil hne
  have hq : ∃ r, joinComma ((p.tokens.filter (fun ft => ft.1.written)).map
      (fun ft => ft.1.text)) ++ [byteOf 0x7D] = byteOf 0x22 :: r := by
    rw [hl]
    cases l with
    | nil => exact ⟨_, by simp [joinComma, Field.text, appendString]; rfl⟩
    | cons a b => exact ⟨_, by simp [joinComma, Field.text, appendString]; rfl⟩
  obtain ⟨r, hr⟩ := hq
  rw [marshalOrderParam_eq] at hrm ⊢
  unfold readObject
  rw [skipSpace_cons _ _ (by decide)]
  simp only [byteOf_val, Nat.reduceMod, if_true]
  rw [hr] at hrm ⊢
  rw [skipSpace_cons _ _ (by decide)]
  simp only [byteOf_val, Nat.reduceMod]
  simp only [Nat.reduceEqDiff, if_false]
  rw [hrm]
  simp [skipSpace, OrderParam.members]

theorem requestId_eq (ms : Int64) : requestId ms = formatInt ms.val ++ lit "-1" := by
  have l : lit "%d-%d" = [byteOf 37, byteOf 100, byteOf 45, byteOf 37, byteOf 100] := by decide
  have e1 : (byteOf 37 = byteOf 37) = True := by simp
  have e2 : (byteOf 100 = byteOf 37) = False := by simp; decide
  have e3 : (byteOf 45 = byteOf 37) = False := by simp; decide
  have f1 : formatInt 1 = [byteOf 49] := by decide
  have l2 : lit "-1" = [byteOf 45, byteOf 49] := by decide
  have n2 : ¬ (byteOf 100 = byteOf 37) := by decide
  have n3 : ¬ (byteOf 45 = byteOf 37) := by decide
  simp only [requestId, l, sprintf, formatVerb, e1, e2, e3, if_true, if_false, true_or, f1, l2]
  simp [n2, n3]

theorem orderPlace_payload_text (p : OrderParam) (ts ms : Int64) :
    encodeStruct (orderPlace p ts ms).Payload.fields
      = lit "\x7b\"req_id\":" ++ appendString (requestId ms) ++ lit ",\"req_param\":"
          ++ marshalOrderParam p ++ lit "\x7d" := by
  have l2 : lit "-1" = [byteOf 45, byteOf 49] := by decide
  have h1 : ((requestId ms).length == 0) = false := by
    rw [requestId_eq, l2]; simp
  have h2 : ((marshalOrderParam p).length == 0) = false := by
    rw [marshalOrderParam_eq]; simp
  have h2b : ¬ (marshalOrderParam p).length = 0 := by simpa using h2
  have e : (orderPlace p ts ms).Payload.fields.filter Field.written
      = [stringField "req_id" true (requestId ms),
         rawField "req_param" true (marshalOrderParam p)] := by
    simp [orderPlace, ApiPayload.fields, Field.written, stringField, rawField, List.filter, h1,
      h2, lit]
  have k1 : lit "\x7b" ++ (appendString (lit "req_id") ++ lit ":")
      = lit "\x7b\"req_id\":" := by decide
  have k3 : lit "," ++ (appendString (lit "req_param") ++ lit ":")
      = lit ",\"req_param\":" := by decide
  rw [encodeStruct, e]
  simp only [List.map, joinComma, Field.text, stringField, rawField, h2b, if_false, ← k1, ← k3,
    List.append_assoc]

theorem orderPlace_fields_written (p : OrderParam) (ts ms : Int64) :
    (orderPlace p ts ms).fields.filter Field.written
      = [intField "time" false ts, stringField "channel" false FUTURES_ORDER_PLACE,
         stringField "event" true (lit "api"),
         structField "payload" true (encodeStruct (orderPlace p ts ms).Payload.fields)] := by
  have h3 : ((lit "api").length == 0) = false := by decide
  simp only [ApiRequest.fields]
  simp [orderPlace, Field.written, stringField, intField, ptrIntField, structField,
    List.filter, h3]

/-- C4, as the spec words it, fails: for the `OrderParam` whose contract is the
single byte `0xFF`, which is not UTF-8, the request parameters of the envelope
are the JSON text with contract `\ufffd`, and decoding them gives the contract
`EF BF BD`, not the original value. -/
theorem orderPlace_invalid_text_not_restored :
    (orderPlace { Contract := [byteOf 0xFF] } (Int64.ofInt 1700000000)
        (Int64.ofInt 1700000000000)).Payload.RequestParam
        = lit "\x7b\"contract\":\"\\ufffd\"\x7d"
      ∧ unmarshalOrderParam
          (orderPlace { Contract := [byteOf 0xFF] } (Int64.ofInt 1700000000)
            (Int64.ofInt 1700000000000)).Payload.RequestParam {}
        = some { Contract := [byteOf 0xEF, byteOf 0xBF, byteOf 0xBD] }
      ∧ unmarshalOrderParam
          (orderPlace { Contract := [byteOf 0xFF] } (Int64.ofInt 1700000000)
            (Int64.ofInt 1700000000000)).Payload.RequestParam {}
        ≠ some { Contract := [byteOf 0xFF] } := by
  refine ⟨by decide, by decide, by decide⟩

/-- C4, amended. For every `OrderParam` whose string fields are valid UTF-8,
the envelope `PlaceOrder` builds has channel `futures.order_place` and event
`api`, its request parameters are the JSON encoding of the value, decoding them
into a zero `OrderParam` gives the value back, field for field, whether or not
a field was omitted for holding its zero value, and the serialised envelope
carries those bytes unchanged under `req_param`. -/
theorem orderPlace_roundtrip (p : OrderParam) (hv : p.validText = true) (ts ms : Int64) :
    (orderPlace p ts ms).Channel = lit "futures.order_place"
      ∧ (orderPlace p ts ms).Event = lit "api"
      ∧ (orderPlace p ts ms).Payload.RequestParam = marshalOrderParam p
      ∧ unmarshalOrderParam (orderPlace p ts ms).Payload.RequestParam {} = some p
      ∧ PlaceOrder p ts ms
        = lit "\x7b\"time\":" ++ formatInt ts.val
            ++ lit ",\"channel\":\"futures.order_place\",\"event\":\"api\",\"payload\":\x7b\"req_id\":"
            ++ appendString (requestId ms) ++ lit ",\"req_param\":" ++ marshalOrderParam p
            ++ lit "\x7d\x7d" := by
  refine ⟨rfl, rfl, rfl, ?_, ?_⟩
  · show unmarshalOrderParam (marshalOrderParam p) {} = some p
    rw [unmarshalOrderParam, readObject_marshalOrderParam p hv]
    exact assignMembers_members p
  · have k1 : lit "\x7b" ++ (appendString (lit "time") ++ lit ":")
        = lit "\x7b\"time\":" := by decide
    have k2 : lit "," ++ (appendString (lit "channel") ++ (lit ":"
        ++ (appendString FUTURES_ORDER_PLACE ++ (lit "," ++ (appendString (lit "event")
        ++ (lit ":" ++ (appendString (lit "api") ++ (lit "," ++ (appendString (lit "payload")
        ++ (lit ":" ++ lit "\x7b\"req_id\":"))))))))))
        = lit ",\"channel\":\"futures.order_place\",\"event\":\"api\",\"payload\":\x7b\"req_id\":"
        := by decide
    have k4 : lit "\x7d\x7d" = lit "\x7d" ++ lit "\x7d" := by decide
    rw [PlaceOrder, marshalApiRequest, encodeStruct, orderPlace_fields_written,
      orderPlace_payload_text]
    simp only [List.map, joinComma, Field.text, stringField, intField, structField, ← k1, ← k2,
      k4, List.append_assoc]

theorem orderPlace_roundtrip_witness :
    OrderParam.validText
        { Contract := lit "BTC_USDT", Size := Int64.ofInt (-5), Price := lit "0",
          ReduceOnly := true, Tif := lit "ioc", Text := lit "t-é<1>" } = true
      ∧ unmarshalOrderParam
          (orderPlace
            { Contract := lit "BTC_USDT", Size := Int64.ofInt (-5), Price := lit "0",
              ReduceOnly := true, Tif := lit "ioc", Text := lit "t-é<1>" }
            (Int64.ofInt 1700000000) (Int64.ofInt 1700000000000)).Payload.RequestParam {}
        = some
            { Contract := lit "BTC_USDT", Size := Int64.ofInt (-5), Price := lit "0",
              ReduceOnly := true, Tif := lit "ioc", Text := lit "t-é<1>" } :=
  ⟨by decide, (orderPlace_roundtrip _ (by decide) _ _).2.2.2.1⟩

set_option maxRecDepth 100000 in
/-- The test vector `abc` of FIPS 180-4 for SHA-512. -/
theorem sha512_abc :
    sha512 (lit "abc")
      = [byteOf 0xdd, byteOf 0xaf, byteOf 0x35, byteOf 0xa1, byteOf 0x93, byteOf 0x61,
     byteOf 0x7a, byteOf 0xba, byteOf 0xcc, byteOf 0x41, byteOf 0x73, byteOf 0x49,
     byteOf 0xae, byteOf 0x20, byteOf 0x41, byteOf 0x31, byteOf 0x12, byteOf 0xe6,
     byteOf 0xfa, byteOf 0x4e, byteOf 0x89, byteOf 0xa9, byteOf 0x7e, byteOf 0xa2,
     byteOf 0x0a, byteOf 0x9e, byteOf 0xee, byteOf 0xe6, byteOf 0x4b, byteOf 0x55,
     byteOf 0xd3, byteOf 0x9a, byteOf 0x21, byteOf 0x92, byteOf 0x99, byteOf 0x2a,
     byteOf 0x27, byteOf 0x4f, byteOf 0xc1, byteOf 0xa8, byteOf 0x36, byteOf 0xba,
     byteOf 0x3c, byteOf 0x23, byteOf 0xa3, byteOf 0xfe, byteOf 0xeb, byteOf 0xbd,
     byteOf 0x45, byteOf 0x4d, byteOf 0x44, byteOf 0x23, byteOf 0x64, byteOf 0x3c,
     byteOf 0xe8, byteOf 0x0e, byteOf 0x2a, byteOf 0x9a, byteOf 0xc9, byteOf 0x4f,
     byteOf 0xa5, byteOf 0x4c, byteOf 0xa4, byteOf 0x9f] := by
  rfl

set_option maxRecDepth 100000 in
/-- Test case 2 of RFC 4231 for HMAC-SHA-512. -/
theorem hmacSha512_rfc4231 :
    lowerHex (hmacSha512 (lit "Jefe") (lit "what do ya want for nothing?"))
      = lit ("164b7a7bfcf819e2e395fbe73b56e0a387bd64222e831fd610270cd7ea250554"
          ++ "9758bf75c05a994a6d034f65f8f0e6fdcaeab1a34d4a6b4b636e070a38bce737") := by
  rfl

set_option maxRecDepth 100000 in
/-- The signature of a login at time 1700000000 under the secret `secret`. -/
theorem getApiSignature_example :
    getApiSignature (lit "secret") FUTURES_LOGIN (lit "") (Int64.ofInt 1700000000)
      = lit ("f39035057b3528fc2c5aff4b9cfa9f43673c88d3ff823c554686081732058099"
          ++ "99a8b45d7ed898ebf49c15a4f6e5131de175ded143be5eeb58431f600e1d4085") := by
  rfl

/-- With a context and a connection in place, `Disconnect` returns, and the
context is cancelled, the connection closed and the flag false. -/
theorem Disconnect_connected (w : World) (x c : Nat) (hx : w.ws.ctx = some x)
    (hc : w.ws.conn = some c) :
    (Disconnect w).2 = .returned (w.closed.contains c)
      ∧ (Disconnect w).1.cancelled = x :: w.cancelled
      ∧ (Disconnect w).1.closed = c :: w.closed
      ∧ (Disconnect w).1.ws.isConnected = false := by
  simp [Disconnect, hx, hc]

end GateWs
